import Mathlib

/-!
# go-googlesheets: verification development

A shallow embedding of `service.go` (package `googlesheets`) and of
`example/main.go`, together with the properties proved about them.

Go strings are byte sequences; they are embedded as lists of byte values.
Calls into the Go standard library and into the oauth2 / sheets SDKs are
either embedded from their documented behaviour (string and path helpers,
the JSON codec of `oauth2.Token`) or taken from an explicit environment
record (current user, network, file-system failures).
-/

namespace GoogleSheets

/-! ## Go strings -/

/-- A Go string: a sequence of bytes, each a natural number below 256. -/
abbrev GoString := List Nat

/-- The bytes of an ASCII literal of the Go source. -/
def goStr (s : String) : GoString := s.toList.map Char.toNat

/-- Go errors are identified with the text returned by their `Error()` method. -/
abbrev GoError := GoString

/-- Embedding of `strings.HasSuffix(s, suffix)`:
`len(s) >= len(suffix) && s[len(s)-len(suffix):] == suffix`. -/
def HasSuffix (s suffix : GoString) : Bool :=
  decide (suffix.length ≤ s.length) && (s.drop (s.length - suffix.length) == suffix)

/-! ## net/url: QueryEscape -/

/-- Embedding of `shouldEscape(c, encodeQueryComponent)` of `net/url`: letters,
digits and the marks `-`, `_`, `.`, `~` are kept, every other byte is escaped. -/
def shouldEscape (c : Nat) : Bool :=
  if (97 ≤ c ∧ c ≤ 122) ∨ (65 ≤ c ∧ c ≤ 90) ∨ (48 ≤ c ∧ c ≤ 57) then false
  else if c = 45 ∨ c = 95 ∨ c = 46 ∨ c = 126 then false
  else true

/-- The table `upperhex = "0123456789ABCDEF"` of `net/url`, indexed by a nibble. -/
def upperhex (n : Nat) : Nat :=
  if n % 16 < 10 then 48 + n % 16 else 55 + n % 16

/-- Embedding of `url.QueryEscape`: a space becomes `+`, a byte that
`shouldEscape` becomes `%XX` (upper-case hexadecimal), any other byte is kept. -/
def QueryEscape : GoString → GoString
  | [] => []
  | c :: cs =>
    if c = 32 then 43 :: QueryEscape cs
    else if shouldEscape c then 37 :: upperhex (c / 16) :: upperhex (c % 16) :: QueryEscape cs
    else c :: QueryEscape cs

/-! ## path/filepath (Unix): Clean and Join -/

/-- The path separator `/`. -/
def sep : Nat := 47

/-- The components of a path: the byte sequences between separators. -/
def splitSlash : GoString → List GoString
  | [] => [[]]
  | c :: cs =>
    if c = sep then [] :: splitSlash cs
    else
      match splitSlash cs with
      | [] => [[c]]
      | h :: t => (c :: h) :: t

/-- The component `..`. -/
def dotdot : GoString := [46, 46]

/-- The component `.`. -/
def dot : GoString := [46]

/-- One step of the lexical processing of `filepath.Clean`, on the stack of
components kept so far (last kept component first): empty components and `.`
are dropped, `..` removes the preceding real component, is dropped at the root
and is kept at the start of a relative path, any other component is kept. -/
def cleanStep (rooted : Bool) (stack : List GoString) (comp : GoString) : List GoString :=
  if comp = [] ∨ comp = dot then stack
  else if comp = dotdot then
    match stack with
    | [] => if rooted then [] else [dotdot]
    | top :: rest => if top = dotdot then dotdot :: top :: rest else rest
  else comp :: stack

/-- Components joined with the separator. -/
def joinSlash : List GoString → GoString
  | [] => []
  | [c] => c
  | c :: d :: rest => c ++ sep :: joinSlash (d :: rest)

/-- The text of a cleaned path from its kept components (in path order). -/
def renderPath (rooted : Bool) (comps : List GoString) : GoString :=
  if rooted then sep :: joinSlash comps
  else if comps = [] then dot else joinSlash comps

/-- Whether a path starts at the root. -/
def isRooted : GoString → Bool
  | c :: _ => c == sep
  | [] => false

/-- Embedding of `filepath.Clean` on Unix: the shortest path equivalent to
`path` by purely lexical processing. -/
def Clean (path : GoString) : GoString :=
  renderPath (isRooted path) ((splitSlash path).foldl (cleanStep (isRooted path)) []).reverse

/-- Embedding of `filepath.Join(a, b)` on Unix: empty elements are ignored, the
others are joined with the separator and the result is cleaned; the result is
empty when both elements are. -/
def Join (a b : GoString) : GoString :=
  if a ≠ [] then Clean (a ++ sep :: b)
  else if b ≠ [] then Clean b
  else []

/-! ## oauth2.Token -/

/-- A `time.Time`, as `Time.Equal` and the zone offset see it: the date and the
time of day on the clock of its zone, and `offset`, the offset of that zone in
seconds east of UTC (the argument of `time.FixedZone`). The name of the zone and
the monotonic clock reading are not part of the embedding. -/
structure Time where
  year : Int
  month : Nat
  day : Nat
  hour : Nat
  minute : Nat
  second : Nat
  nano : Nat
  offset : Int
  deriving DecidableEq, Repr

/-- The zero `time.Time`: January 1, year 1, 00:00:00 UTC. -/
def Time.zero : Time := ⟨1, 1, 1, 0, 0, 0, 0, 0⟩

/-- The exported fields of `oauth2.Token`. -/
structure Token where
  AccessToken : GoString
  TokenType : GoString
  RefreshToken : GoString
  Expiry : Time
  deriving DecidableEq, Repr

/-- The zero value `oauth2.Token{}`. -/
def Token.zero : Token := ⟨[], [], [], Time.zero⟩

deriving instance DecidableEq for Except

/-! ## encoding/json on `oauth2.Token`: encoding -/

/-- Whether `b` is a UTF-8 continuation byte. -/
def isCont (b : Nat) : Bool := decide (128 ≤ b ∧ b ≤ 191)

/-- Length of the well-formed UTF-8 sequence of two to four bytes that starts
`s`, or `0` when `s` does not start with one (`utf8.DecodeRune`). -/
def utf8Len (s : GoString) : Nat :=
  match s with
  | b0 :: b1 :: rest =>
    if 194 ≤ b0 ∧ b0 ≤ 223 then (if isCont b1 then 2 else 0)
    else
      match rest with
      | b2 :: rest2 =>
        if 224 ≤ b0 ∧ b0 ≤ 239 then
          let lo := if b0 = 224 then 160 else 128
          let hi := if b0 = 237 then 159 else 191
          if lo ≤ b1 ∧ b1 ≤ hi ∧ isCont b2 then 3 else 0
        else if 240 ≤ b0 ∧ b0 ≤ 244 then
          match rest2 with
          | b3 :: _ =>
            let lo := if b0 = 240 then 144 else 128
            let hi := if b0 = 244 then 143 else 191
            if lo ≤ b1 ∧ b1 ≤ hi ∧ isCont b2 ∧ isCont b3 then 4 else 0
          | [] => 0
        else 0
      | [] => 0
  | _ => 0

/-- The table `hex = "0123456789abcdef"` of `encoding/json`. -/
def lowerhex (n : Nat) : Nat :=
  if n % 16 < 10 then 48 + n % 16 else 87 + n % 16

/-- Embedding of `appendString(dst, src, escapeHTML = true)` of `encoding/json`,
without the surrounding quotes. `skip` counts the bytes of a multi-byte
character still to be passed over; they are copied when `copy` is set. -/
def jsonEscape (copy : Bool) (skip : Nat) : GoString → GoString
  | [] => []
  | b :: rest =>
    if skip ≠ 0 then
      if copy then b :: jsonEscape copy (skip - 1) rest else jsonEscape copy (skip - 1) rest
    else if b < 128 then
      if b = 92 then 92 :: 92 :: jsonEscape true 0 rest
      else if b = 34 then 92 :: 34 :: jsonEscape true 0 rest
      else if b = 8 then 92 :: 98 :: jsonEscape true 0 rest
      else if b = 12 then 92 :: 102 :: jsonEscape true 0 rest
      else if b = 10 then 92 :: 110 :: jsonEscape true 0 rest
      else if b = 13 then 92 :: 114 :: jsonEscape true 0 rest
      else if b = 9 then 92 :: 116 :: jsonEscape true 0 rest
      else if b < 32 ∨ b = 60 ∨ b = 62 ∨ b = 38 then
        92 :: 117 :: 48 :: 48 :: lowerhex (b / 16) :: lowerhex (b % 16) :: jsonEscape true 0 rest
      else b :: jsonEscape true 0 rest
    else
      match utf8Len (b :: rest) with
      | 0 => goStr "\\ufffd" ++ jsonEscape true 0 rest
      | n + 1 =>
        if b = 226 ∧ rest.take 2 = [128, 168] then goStr "\\u2028" ++ jsonEscape false 2 rest
        else if b = 226 ∧ rest.take 2 = [128, 169] then goStr "\\u2029" ++ jsonEscape false 2 rest
        else b :: jsonEscape true n rest

/-- Two decimal digits. -/
def digits2 (n : Nat) : GoString := [48 + n / 10 % 10, 48 + n % 10]

/-- Four decimal digits. -/
def digits4 (n : Nat) : GoString := digits2 (n / 100) ++ digits2 n

/-- Trailing zero bytes removed. -/
def trimZeros (s : GoString) : GoString := (s.reverse.dropWhile (fun c => c == 48)).reverse

/-- Nine decimal digits. -/
def digits9 (n : Nat) : GoString :=
  digits2 (n / 10000000) ++ digits2 (n / 100000) ++ digits2 (n / 1000) ++ digits2 (n / 10) ++
    [48 + n % 10]

/-- The fractional second of the layout `RFC3339Nano`: absent when zero,
otherwise up to nine digits without trailing zeros. -/
def fmtNano (nano : Nat) : GoString :=
  if nano = 0 then [] else 46 :: trimZeros (digits9 nano)

/-- The zone of the layout `RFC3339Nano`: `Z` when the offset is zero, otherwise
a sign and `hh:mm` for the offset in whole minutes; the seconds of the offset
are cut off. -/
def fmtZone (offset : Int) : GoString :=
  if offset = 0 then [90]
  else (if offset < 0 ∧ 60 ≤ offset.natAbs then 45 else 43) ::
    (digits2 (offset.natAbs / 60 / 60) ++ 58 :: digits2 (offset.natAbs / 60 % 60))

/-- Embedding of `Time.MarshalJSON`: the quoted `RFC3339Nano` text; an error
when the year is outside `[0,9999]` or the zone hour outside `[0,23]`. -/
def timeMarshalJSON (t : Time) : Except GoError GoString :=
  if t.year < 0 ∨ 10000 ≤ t.year then
    .error (goStr "Time.MarshalJSON: year outside of range [0,9999]")
  else if 24 ≤ t.offset.natAbs / 60 / 60 then
    .error (goStr "Time.MarshalJSON: timezone hour outside of range [0,23]")
  else
    .ok (34 :: (digits4 t.year.toNat ++ 45 :: digits2 t.month ++ 45 :: digits2 t.day ++
      84 :: digits2 t.hour ++ 58 :: digits2 t.minute ++ 58 :: digits2 t.second ++
      fmtNano t.nano ++ fmtZone t.offset ++ [34]))

/-- A quoted JSON string. -/
def jsonQuote (s : GoString) : GoString := 34 :: jsonEscape true 0 s ++ [34]

/-- Embedding of `json.Marshal` on an `oauth2.Token`, whose fields carry the tags
`access_token`, `token_type,omitempty`, `refresh_token,omitempty` and
`expiry,omitempty` (the last option has no effect on a struct value); the text
ends with the newline that `Encoder.Encode` appends. -/
def goJSONMarshal (t : Token) : Except GoError GoString :=
  match timeMarshalJSON t.Expiry with
  | .error e => .error (goStr "json: error calling MarshalJSON for type time.Time: " ++ e)
  | .ok expiry =>
    .ok (goStr "\x7b\"access_token\":" ++ jsonQuote t.AccessToken ++
      (if t.TokenType = [] then [] else goStr ",\"token_type\":" ++ jsonQuote t.TokenType) ++
      (if t.RefreshToken = [] then [] else goStr ",\"refresh_token\":" ++ jsonQuote t.RefreshToken) ++
      goStr ",\"expiry\":" ++ expiry ++ goStr "\x7d\n")

/-! ## encoding/json on `oauth2.Token`: decoding -/

/-- JSON white space: space, tab, carriage return, line feed. -/
def isSpace (c : Nat) : Bool := decide (c = 32 ∨ c = 9 ∨ c = 13 ∨ c = 10)

/-- Leading white space removed. -/
def skipSpace : GoString → GoString
  | [] => []
  | c :: cs => if isSpace c then skipSpace cs else c :: cs

/-- Whether `c` is a decimal digit. -/
def isDigit (c : Nat) : Bool := decide (48 ≤ c ∧ c ≤ 57)

/-- Leading decimal digits removed. -/
def skipDigits : GoString → GoString
  | [] => []
  | c :: cs => if isDigit c then skipDigits cs else c :: cs

/-- Value of a hexadecimal digit. -/
def hexVal (c : Nat) : Option Nat :=
  if 48 ≤ c ∧ c ≤ 57 then some (c - 48)
  else if 97 ≤ c ∧ c ≤ 102 then some (c - 87)
  else if 65 ≤ c ∧ c ≤ 70 then some (c - 55)
  else none

/-- Embedding of `getu4` after the `\u`: the value of four hexadecimal digits. -/
def getu4 : GoString → Option Nat
  | a :: b :: c :: d :: _ =>
    match hexVal a, hexVal b, hexVal c, hexVal d with
    | some a, some b, some c, some d => some (((a * 16 + b) * 16 + c) * 16 + d)
    | _, _, _, _ => none
  | _ => none

/-- The UTF-8 text of U+FFFD, the replacement character. -/
def replacementChar : GoString := [239, 191, 189]

/-- Embedding of `utf8.EncodeRune`. -/
def encodeRune (r : Nat) : GoString :=
  if r < 128 then [r]
  else if r < 2048 then [192 + r / 64, 128 + r % 64]
  else if (55296 ≤ r ∧ r ≤ 57343) ∨ 1114111 < r then replacementChar
  else if r < 65536 then [224 + r / 4096, 128 + r / 64 % 64, 128 + r % 64]
  else [240 + r / 262144, 128 + r / 4096 % 64, 128 + r / 64 % 64, 128 + r % 64]

/-- The error `io.ErrUnexpectedEOF`. -/
def errUnexpectedEOF : GoError := goStr "unexpected EOF"

/-- A `json.SyntaxError`; the text names the offending byte only in Go. -/
def errInvalid : GoError := goStr "invalid character"

/-- A scanned string literal: the raw text between the quotes, its unquoted
value, and the input after the closing quote. -/
structure Scanned where
  raw : GoString
  value : GoString
  rest : GoString

/-- A scanned string with `raw` and `value` bytes put in front. -/
def pushScanned (raw value : GoString) : Except GoError Scanned → Except GoError Scanned
  | .ok s => .ok ⟨raw ++ s.raw, value ++ s.value, s.rest⟩
  | .error e => .error e

/-- The scanner and `unquote` of `encoding/json` on a string literal whose
opening quote has been read: control bytes are rejected, escapes are resolved
(a surrogate pair becomes one character, a lone surrogate U+FFFD), and bytes
that are not well-formed UTF-8 become U+FFFD. `skip` counts the bytes of a
multi-byte character still to be copied. -/
def scanString : Nat → Nat → GoString → Except GoError Scanned
  | 0, _, _ => .error errUnexpectedEOF
  | fuel + 1, skip, inp =>
    match inp with
    | [] => .error errUnexpectedEOF
    | b :: rest =>
      if skip ≠ 0 then pushScanned [b] [b] (scanString fuel (skip - 1) rest)
      else if b = 34 then .ok ⟨[], [], rest⟩
      else if b < 32 then .error errInvalid
      else if b = 92 then
        match rest with
        | [] => .error errUnexpectedEOF
        | e :: rest2 =>
          if e = 117 then
            match getu4 rest2 with
            | none => .error (if rest2.length < 4 then errUnexpectedEOF else errInvalid)
            | some rr =>
              let raw := b :: e :: rest2.take 4
              let rest3 := rest2.drop 4
              if 55296 ≤ rr ∧ rr ≤ 57343 then
                match rest3 with
                | 92 :: 117 :: rest4 =>
                  match getu4 rest4 with
                  | some rr1 =>
                    if rr < 56320 ∧ 56320 ≤ rr1 ∧ rr1 ≤ 57343 then
                      pushScanned (raw ++ 92 :: 117 :: rest4.take 4)
                        (encodeRune (65536 + (rr - 55296) * 1024 + (rr1 - 56320)))
                        (scanString fuel 0 (rest4.drop 4))
                    else pushScanned raw replacementChar (scanString fuel 0 rest3)
                  | none => pushScanned raw replacementChar (scanString fuel 0 rest3)
                | _ => pushScanned raw replacementChar (scanString fuel 0 rest3)
              else pushScanned raw (encodeRune rr) (scanString fuel 0 rest3)
          else if e = 34 ∨ e = 92 ∨ e = 47 then pushScanned [b, e] [e] (scanString fuel 0 rest2)
          else if e = 98 then pushScanned [b, e] [8] (scanString fuel 0 rest2)
          else if e = 102 then pushScanned [b, e] [12] (scanString fuel 0 rest2)
          else if e = 110 then pushScanned [b, e] [10] (scanString fuel 0 rest2)
          else if e = 114 then pushScanned [b, e] [13] (scanString fuel 0 rest2)
          else if e = 116 then pushScanned [b, e] [9] (scanString fuel 0 rest2)
          else .error errInvalid
      else if b < 128 then pushScanned [b] [b] (scanString fuel 0 rest)
      else
        match utf8Len (b :: rest) with
        | 0 => pushScanned [b] replacementChar (scanString fuel 0 rest)
        | n + 1 => pushScanned [b] [b] (scanString fuel n rest)

/-- The exponent part of a number literal. -/
def scanExponent (inp : GoString) : Except GoError GoString :=
  match inp with
  | e :: rest =>
    if e = 101 ∨ e = 69 then
      let rest := match rest with
        | s :: r => if s = 43 ∨ s = 45 then r else s :: r
        | [] => []
      match rest with
      | d :: r => if isDigit d then .ok (skipDigits r) else .error errInvalid
      | [] => .error errUnexpectedEOF
    else .ok inp
  | [] => .ok inp

/-- The fraction and exponent parts of a number literal. -/
def scanFraction (inp : GoString) : Except GoError GoString :=
  match inp with
  | 46 :: rest =>
    match rest with
    | d :: r => if isDigit d then scanExponent (skipDigits r) else .error errInvalid
    | [] => .error errUnexpectedEOF
  | _ => scanExponent inp

/-- The scanner of `encoding/json` on a number literal; the result is the input
after the literal. -/
def scanNumber (inp : GoString) : Except GoError GoString :=
  let inp := match inp with
    | 45 :: r => r
    | _ => inp
  match inp with
  | [] => .error errUnexpectedEOF
  | d :: r =>
    if d = 48 then scanFraction r
    else if isDigit d then scanFraction (skipDigits r)
    else .error errInvalid

/-- The kind of a JSON value, with the text of a string. -/
inductive JKind
  | str (raw value : GoString)
  | null
  | bool
  | number
  | array
  | object
  deriving DecidableEq, Repr

/-- The input after the literal `lit`, which the scanner expects next. -/
def scanLiteral (lit inp : GoString) : Except GoError GoString :=
  if inp.take lit.length = lit then .ok (inp.drop lit.length)
  else if inp.length < lit.length ∧ inp = lit.take inp.length then .error errUnexpectedEOF
  else .error errInvalid

/-- The nesting depth beyond which `encoding/json` gives up. -/
def maxNestingDepth : Nat := 10000

mutual

/-- The scanner of `encoding/json` on one value: its kind and the input after
it. `depth` is the number of arrays and objects that enclose the value. -/
def parseValue : Nat → Nat → GoString → Except GoError (JKind × GoString)
  | 0, _, _ => .error errUnexpectedEOF
  | fuel + 1, depth, inp =>
    match skipSpace inp with
    | [] => .error errUnexpectedEOF
    | c :: rest =>
      if c = 34 then
        match scanString (rest.length + 1) 0 rest with
        | .ok s => .ok (.str s.raw s.value, s.rest)
        | .error e => .error e
      else if c = 123 then
        if maxNestingDepth ≤ depth then .error (goStr "exceeded max depth")
        else
          match parseMembers fuel (depth + 1) true rest with
          | .ok (_, rest) => .ok (.object, rest)
          | .error e => .error e
      else if c = 91 then
        if maxNestingDepth ≤ depth then .error (goStr "exceeded max depth")
        else
          match parseElements fuel (depth + 1) true rest with
          | .ok rest => .ok (.array, rest)
          | .error e => .error e
      else if c = 116 then (scanLiteral (goStr "rue") rest).map (fun r => (.bool, r))
      else if c = 102 then (scanLiteral (goStr "alse") rest).map (fun r => (.bool, r))
      else if c = 110 then (scanLiteral (goStr "ull") rest).map (fun r => (.null, r))
      else if c = 45 ∨ isDigit c then (scanNumber (c :: rest)).map (fun r => (.number, r))
      else .error errInvalid

/-- The members of an object after its opening brace (`first`) or after a
comma: the keys with the kinds of their values, and the input after the closing
brace. -/
def parseMembers : Nat → Nat → Bool → GoString →
    Except GoError (List (GoString × JKind) × GoString)
  | 0, _, _, _ => .error errUnexpectedEOF
  | fuel + 1, depth, first, inp =>
    match skipSpace inp with
    | [] => .error errUnexpectedEOF
    | c :: rest =>
      if c = 125 ∧ first then .ok ([], rest)
      else if c = 34 then
        match scanString (rest.length + 1) 0 rest with
        | .error e => .error e
        | .ok key =>
          match skipSpace key.rest with
          | [] => .error errUnexpectedEOF
          | colon :: rest1 =>
            if colon ≠ 58 then .error errInvalid
            else
              match parseValue fuel depth rest1 with
              | .error e => .error e
              | .ok (v, rest2) =>
                match skipSpace rest2 with
                | [] => .error errUnexpectedEOF
                | d :: rest3 =>
                  if d = 125 then .ok ([(key.value, v)], rest3)
                  else if d = 44 then
                    match parseMembers fuel depth false rest3 with
                    | .ok (ms, rest4) => .ok ((key.value, v) :: ms, rest4)
                    | .error e => .error e
                  else .error errInvalid
      else .error errInvalid

/-- The elements of an array after its opening bracket (`first`) or after a
comma: the input after the closing bracket. -/
def parseElements : Nat → Nat → Bool → GoString → Except GoError GoString
  | 0, _, _, _ => .error errUnexpectedEOF
  | fuel + 1, depth, first, inp =>
    match skipSpace inp with
    | [] => .error errUnexpectedEOF
    | c :: rest =>
      if c = 93 ∧ first then .ok rest
      else
        match parseValue fuel depth (c :: rest) with
        | .error e => .error e
        | .ok (_, rest1) =>
          match skipSpace rest1 with
          | [] => .error errUnexpectedEOF
          | d :: rest2 =>
            if d = 93 then .ok rest2
            else if d = 44 then parseElements fuel depth false rest2
            else .error errInvalid

end

/-- Embedding of `foldName` of `encoding/json`, as far as it can make a key
equal to a name of ASCII letters: letters go to upper case, U+017F to `S` and
U+212A to `K`. -/
def foldName (skip : Nat) : GoString → GoString
  | [] => []
  | c :: rest =>
    if skip ≠ 0 then foldName (skip - 1) rest
    else if c = 197 ∧ rest.take 1 = [191] then 83 :: foldName 1 rest
    else if c = 226 ∧ rest.take 2 = [132, 170] then 75 :: foldName 2 rest
    else (if 97 ≤ c ∧ c ≤ 122 then c - 32 else c) :: foldName 0 rest

/-- Value of a text made of decimal digits only. -/
def atoi (s : GoString) : Option Nat :=
  if s ≠ [] ∧ s.all isDigit then some (s.foldl (fun n c => n * 10 + (c - 48)) 0) else none

/-- Embedding of `daysIn(month, year)` of package `time`. -/
def daysIn (month year : Nat) : Nat :=
  if month = 2 then
    if year % 4 = 0 ∧ (year % 100 ≠ 0 ∨ year % 400 = 0) then 29 else 28
  else if month = 4 ∨ month = 6 ∨ month = 9 ∨ month = 11 then 30
  else 31

/-- Embedding of `parseNanoseconds` on the digits after the decimal mark: the
first nine digits count, padded to nine. -/
def parseNanoseconds (digits : GoString) : Nat :=
  ((digits.take 9) ++ List.replicate (9 - digits.length) 48).foldl (fun n c => n * 10 + (c - 48)) 0

/-- The zone `Z` or `±hh:mm` that ends an RFC 3339 text, in seconds. -/
def parseZone (s : GoString) : Option Int :=
  if s = [90] then some 0
  else
    match s with
    | [sign, h1, h2, colon, m1, m2] =>
      match atoi [h1, h2], atoi [m1, m2] with
      | some hr, some mm =>
        if colon = 58 ∧ hr ≤ 24 ∧ mm ≤ 60 then
          if sign = 43 then some (Int.ofNat ((hr * 60 + mm) * 60))
          else if sign = 45 then some (- Int.ofNat ((hr * 60 + mm) * 60))
          else none
        else none
      | _, _ => none
    | _ => none

/-- What `time.Parse` reads after the seconds of an RFC 3339 text: an optional
fractional second, introduced by a period or a comma, and the zone. The result
is the nanosecond and the zone offset in seconds. -/
def parseSecondsTail (rest : GoString) : Option (Nat × Int) :=
  let hasFraction := match rest with
    | p :: d :: _ => decide (p = 46 ∨ p = 44) && isDigit d
    | _ => false
  let fraction := if hasFraction then (rest.drop 1).takeWhile isDigit else []
  let rest := if hasFraction then skipDigits (rest.drop 1) else rest
  match parseZone rest with
  | some offset => some (parseNanoseconds fraction, offset)
  | none => none

/-- Embedding of `time.Parse(time.RFC3339, s)`, which `Time.UnmarshalJSON`
applies to the raw text between the quotes: `2006-01-02T15:04:05Z07:00`, where
the hour may have one digit and a fractional second may follow the seconds. -/
def parseRFC3339 (s : GoString) : Option Time :=
  match atoi (s.take 4), s.drop 4 with
  | some year, d1 :: rest =>
    match atoi (rest.take 2), rest.drop 2 with
    | some month, d2 :: rest =>
      match atoi (rest.take 2), rest.drop 2 with
      | some day, tee :: rest =>
        let hourLen := if (rest.drop 1).take 1 = [58] then 1 else 2
        match atoi (rest.take hourLen), rest.drop hourLen with
        | some hour, c1 :: rest =>
          match atoi (rest.take 2), rest.drop 2 with
          | some minute, c2 :: rest =>
            match atoi (rest.take 2), parseSecondsTail (rest.drop 2) with
            | some second, some (nano, offset) =>
              if d1 = 45 ∧ d2 = 45 ∧ tee = 84 ∧ c1 = 58 ∧ c2 = 58 ∧ 1 ≤ month ∧ month ≤ 12 ∧
                  1 ≤ day ∧ day ≤ daysIn month year ∧ hour < 24 ∧ minute < 60 ∧ second < 60 then
                some ⟨Int.ofNat year, month, day, hour, minute, second, nano, offset⟩
              else none
            | _, _ => none
          | _, _ => none
        | _, _ => none
      | _, _ => none
    | _, _ => none
  | _, _ => none

/-- The word `encoding/json` uses for a kind of value in an
`UnmarshalTypeError`. -/
def JKind.word : JKind → GoString
  | .str _ _ => goStr "string"
  | .null => goStr "null"
  | .bool => goStr "bool"
  | .number => goStr "number"
  | .array => goStr "array"
  | .object => goStr "object"

/-- A string field after a value of kind `v` was decoded into it: a string sets
it, `null` leaves it, any other kind is an `UnmarshalTypeError`. -/
def assignString (old : GoString) (v : JKind) : Except GoError GoString :=
  match v with
  | .str _ value => .ok value
  | .null => .ok old
  | k => .error (goStr "json: cannot unmarshal " ++ k.word ++ goStr " into Go struct field of type string")

/-- Embedding of `Time.UnmarshalJSON` on a value of kind `v`. -/
def timeUnmarshalJSON (old : Time) (v : JKind) : Except GoError Time :=
  match v with
  | .null => .ok old
  | .str raw _ =>
    match parseRFC3339 raw with
    | some t => .ok t
    | none => .error (goStr "parsing time: cannot parse as RFC 3339")
  | _ => .error (goStr "Time.UnmarshalJSON: input is not a JSON string")

/-- The members of a JSON object stored into a token, in their order. A key
selects the field whose tag equals it, letter case ignored; other keys are
skipped. The first `UnmarshalTypeError` is kept in `saved` and returned after
the last member; an error of `Time.UnmarshalJSON` ends the decoding at once. -/
def assignMembers (t : Token) (saved : Option GoError) :
    List (GoString × JKind) → Except GoError Token
  | [] =>
    match saved with
    | none => .ok t
    | some e => .error e
  | (key, v) :: rest =>
    let name := foldName 0 key
    if name = goStr "ACCESS_TOKEN" then
      match assignString t.AccessToken v with
      | .ok s => assignMembers ⟨s, t.TokenType, t.RefreshToken, t.Expiry⟩ saved rest
      | .error e => assignMembers t (saved.orElse (fun _ => some e)) rest
    else if name = goStr "TOKEN_TYPE" then
      match assignString t.TokenType v with
      | .ok s => assignMembers ⟨t.AccessToken, s, t.RefreshToken, t.Expiry⟩ saved rest
      | .error e => assignMembers t (saved.orElse (fun _ => some e)) rest
    else if name = goStr "REFRESH_TOKEN" then
      match assignString t.RefreshToken v with
      | .ok s => assignMembers ⟨t.AccessToken, t.TokenType, s, t.Expiry⟩ saved rest
      | .error e => assignMembers t (saved.orElse (fun _ => some e)) rest
    else if name = goStr "EXPIRY" then
      match timeUnmarshalJSON t.Expiry v with
      | .ok e => assignMembers ⟨t.AccessToken, t.TokenType, t.RefreshToken, e⟩ saved rest
      | .error e => .error e
    else assignMembers t saved rest

/-- Embedding of `json.NewDecoder(f).Decode(t)` for `t := &oauth2.Token{}`, on
the content of the file: the first JSON value of the stream is read (`io.EOF`
when there is none) and stored into the zero token; what follows the value is
not looked at; `null` stores nothing. -/
def goJSONDecode (data : GoString) : Except GoError Token :=
  match skipSpace data with
  | [] => .error (goStr "EOF")
  | c :: rest =>
    if c = 123 then
      match parseMembers (data.length + 1) 1 true rest with
      | .ok (members, _) => assignMembers Token.zero none members
      | .error e => .error e
    else
      match parseValue (data.length + 1) 0 (c :: rest) with
      | .ok (.null, _) => .ok Token.zero
      | .ok (k, _) =>
        .error (goStr "json: cannot unmarshal " ++ k.word ++ goStr " into Go value of type oauth2.Token")
      | .error e => .error e

/-! ## The environment and the state of a run -/

/-- The part of `user.User` the program reads. -/
structure User where
  HomeDir : GoString
  deriving DecidableEq, Repr

/-- The fields of `oauth2.Config`. -/
structure Config where
  ClientID : GoString
  ClientSecret : GoString
  AuthURL : GoString
  TokenURL : GoString
  RedirectURL : GoString
  Scopes : List GoString
  deriving DecidableEq, Repr

/-- The `*http.Client` that `config.Client(ctx, tok)` returns: it is determined
by the configuration and the token it was built from. -/
structure Client where
  config : Config
  token : Token
  deriving DecidableEq, Repr

/-- What the callback handler reads of a request: `req.URL.Path`,
`req.FormValue("state")` and `req.FormValue("code")`. -/
structure Request where
  path : GoString
  state : GoString
  code : GoString
  deriving DecidableEq, Repr

/-- A cell value (`interface{}`): a Go string, or any other value, identified by
its JSON text. -/
inductive Cell
  | str (s : GoString)
  | other (json : GoString)
  deriving DecidableEq, Repr

/-- The field of `sheets.ValueRange` the program uses. -/
structure ValueRange where
  Values : List (List Cell)
  deriving DecidableEq, Repr

/-- The `*sheets.Service` that `sheets.New(client)` returns. -/
structure Service where
  client : Client
  deriving DecidableEq, Repr

/-- The observable actions of a run, in the order of the trace. -/
inductive Event
  /-- The call `os.MkdirAll(dir, perm)`. -/
  | mkdirAll (dir : GoString) (perm : Nat)
  /-- The line `Saving credential file to: <file>` on standard output. -/
  | savingCredential (file : GoString)
  /-- The call `exec.Command(bin, url).Run()`. -/
  | command (bin url : GoString)
  /-- The log line `Failed to open URL in browser.`. -/
  | logOpenFailed
  /-- The log line `Authorize this app at: <authURL>`. -/
  | logAuthorize (authURL : GoString)
  /-- The log line `State doesn't match: req = ...`. -/
  | logStateMismatch (req : Request)
  /-- The log line `no code from web`. -/
  | logNoCode
  /-- The answer of the local server to a request. -/
  | reply (status : Nat) (body : GoString)
  /-- The log line `Got code: <code>`. -/
  | logGotCode (code : GoString)
  /-- The call `config.Exchange(ctx, code)`. -/
  | exchange (code : GoString)
  /-- The call `Spreadsheets.Values.Get(id, range).Do()`. -/
  | valuesGet (id range : GoString)
  /-- The call `Spreadsheets.Values.Clear(id, range, &clearReq).Do()`. -/
  | valuesClear (id range : GoString)
  /-- The call `Spreadsheets.Values.Update(id, range, &valueRange).ValueInputOption(option).Do()`. -/
  | valuesUpdate (id range : GoString) (values : ValueRange) (option : GoString)
  /-- The line `row[<i>]; <row>` on standard output. -/
  | printRow (i : Nat) (row : List Cell)
  /-- The log line `clear response: <resp>`. -/
  | logClearResponse (resp : GoString)
  /-- The log line `update response: <resp>`. -/
  | logUpdateResponse (resp : GoString)
  deriving DecidableEq, Repr

/-- What a run takes from outside the program: the operating system, the JSON
codec, the network and the user at the browser. -/
structure Env where
  /-- Result of `user.Current()`. -/
  currentUser : Except GoError User
  /-- What `json.NewEncoder(f).Encode(token)` writes for a token, or its error. -/
  marshal : Token → Except GoError GoString
  /-- Result of `json.NewDecoder(f).Decode(t)` on the content of a file. -/
  decode : GoString → Except GoError Token
  /-- Error of `os.OpenFile(file, O_RDWR|O_CREATE|O_TRUNC, 0600)`, if any. -/
  openFileErr : GoString → Option GoError
  /-- Error of writing to the opened file, if any. -/
  writeErr : GoString → Option GoError
  /-- Value of `time.Now().UnixNano()`. -/
  now : Int
  /-- The address `ts.URL` of the local server. -/
  serverURL : GoString
  /-- Result of `config.AuthCodeURL(state)`. -/
  authCodeURL : Config → GoString → GoString
  /-- Whether `exec.Command(bin, url).Run()` returns no error. -/
  runCommand : GoString → GoString → Bool
  /-- The requests that reach the local server, in their order. -/
  requests : List Request
  /-- Result of `config.Exchange(ctx, code)`. -/
  exchange : Config → GoString → Except GoError Token
  /-- Result of `google.ConfigFromJSON(b, scope)`. -/
  configFromJSON : GoString → GoString → Except GoError Config
  /-- Result of `sheets.New(client)`. -/
  sheetsNew : Client → Except GoError Service
  /-- Result of `srv.Spreadsheets.Values.Get(id, range).Do()`. -/
  valuesGet : Service → GoString → GoString → Except GoError ValueRange
  /-- Result of `srv.Spreadsheets.Values.Clear(id, range, &clearReq).Do()`. -/
  valuesClear : Service → GoString → GoString → Except GoError GoString
  /-- Result of `srv.Spreadsheets.Values.Update(id, range, &valueRange).ValueInputOption(option).Do()`. -/
  valuesUpdate : Service → GoString → GoString → ValueRange → GoString → Except GoError GoString

/-- The mutable part of a run: the readable regular files (path and content,
the first entry of a path counts) and the trace of actions so far. -/
structure State where
  files : List (GoString × GoString)
  trace : List Event
  deriving DecidableEq, Repr

/-- The content of the file at `path`, if there is one. -/
def State.content (s : State) (path : GoString) : Option GoString :=
  s.files.lookup path

/-- The state after the file at `path` received the content `data`. -/
def State.store (s : State) (path data : GoString) : State :=
  ⟨(path, data) :: s.files, s.trace⟩

/-- The state after one more action. -/
def State.emit (s : State) (e : Event) : State :=
  ⟨s.files, s.trace ++ [e]⟩

/-- How a call ends: it returns a value, or it waits forever. -/
inductive Outcome (α : Type)
  | returned (a : α)
  | blocked
  deriving DecidableEq, Repr

/-- The text of `%d` for an integer. -/
def itoa (n : Int) : GoString := goStr (toString n)

/-! ## service.go -/

/-- Embedding of `tokenCacheFile`: the path of the credential file. -/
def tokenCacheFile (env : Env) (cacheFileName : GoString) (s : State) :
    Except GoError GoString × State :=
  match env.currentUser with
  | .error err => (.error err, s)
  | .ok usr =>
    let tokenCacheDir := Join usr.HomeDir (goStr ".google_oauth_credentials")
    let s := s.emit (.mkdirAll tokenCacheDir 448)
    let suffix := goStr ".json"
    let cacheFileName :=
      if !HasSuffix cacheFileName suffix then cacheFileName ++ suffix else cacheFileName
    (.ok (Join tokenCacheDir (QueryEscape cacheFileName)), s)

/-- Embedding of `tokenFromFile`: the token decoded from the file, or the error
of opening or decoding it. `os.Open` fails exactly on a path that is not among
the readable files of the state. -/
def tokenFromFile (env : Env) (file : GoString) (s : State) : Except GoError Token :=
  match s.content file with
  | none => .error (goStr "open " ++ file ++ goStr ": no such file or directory")
  | some data => env.decode data

/-- Embedding of `json.NewEncoder(f).Encode(token)` on the file opened at
`file`: the token is marshalled, then written at the end of the file. -/
def encodeToFile (env : Env) (file : GoString) (token : Token) (s : State) :
    Option GoError × State :=
  match env.marshal token with
  | .error err => (some err, s)
  | .ok data =>
    match env.writeErr file with
    | some err => (some err, s)
    | none => (none, s.store file ((s.content file).getD [] ++ data))

/-- Embedding of `saveToken`: the file is created or truncated, the token is
encoded into it, and the result of the encoding is dropped. -/
def saveToken (env : Env) (file : GoString) (token : Token) (s : State) :
    Option GoError × State :=
  let s := s.emit (.savingCredential file)
  match env.openFileErr file with
  | some err => (some (goStr "Unable to cache oauth token: " ++ err), s)
  | none =>
    let s := s.store file []
    let s := (encodeToFile env file token s).2
    (none, s)

/-- Embedding of `openURL` on the programs still to try. -/
def openURLWith (env : Env) (url : GoString) : List GoString → State → State
  | [], s => s.emit .logOpenFailed
  | bin :: rest, s =>
    let s := s.emit (.command bin url)
    if env.runCommand bin url then s else openURLWith env url rest s

/-- Embedding of `openURL`: the first of `xdg-open`, `google-chrome` and `open`
that runs without error ends the search. -/
def openURL (env : Env) (url : GoString) (s : State) : State :=
  openURLWith env url [goStr "xdg-open", goStr "google-chrome", goStr "open"] s

/-- What the callback handler does with a request: the answer, the code sent on
the channel `ch`, and the line logged. -/
structure Reply where
  status : Nat
  body : GoString
  sent : Option GoString
  logged : Option Event
  deriving DecidableEq, Repr

/-- Embedding of the handler function of `getTokenFromWeb`. -/
def handler (randState : GoString) (req : Request) : Reply :=
  if req.path = goStr "/favicon.ico" then ⟨404, goStr "\n", none, none⟩
  else if req.state ≠ randState then ⟨500, goStr "\n", none, some (.logStateMismatch req)⟩
  else if req.code ≠ [] then ⟨200, goStr "<h1>Success</h1>Authorized.", some req.code, none⟩
  else ⟨500, goStr "\n", none, some .logNoCode⟩

/-- Embedding of `code := <-ch`: the server answers the requests in their order
until a handler sends a code; no code is received when none does. -/
def awaitCode (randState : GoString) : List Request → State → Option GoString × State
  | [], s => (none, s)
  | req :: rest, s =>
    let r := handler randState req
    let s := match r.logged with
      | some e => s.emit e
      | none => s
    let s := s.emit (.reply r.status r.body)
    match r.sent with
    | some code => (some code, s)
    | none => awaitCode randState rest s

/-- Embedding of `getTokenFromWeb`; the configuration is the one behind the
pointer `config` after the call. The actions of the goroutine `go openURL(authURL)`
are recorded where it is started. -/
def getTokenFromWeb (env : Env) (config : Config) (s : State) :
    Outcome (Except GoError Token) × Config × State :=
  let randState := goStr "st" ++ itoa env.now
  let config : Config := ⟨config.ClientID, config.ClientSecret, config.AuthURL, config.TokenURL,
    env.serverURL, config.Scopes⟩
  let authURL := env.authCodeURL config randState
  let s := openURL env authURL s
  let s := s.emit (.logAuthorize authURL)
  match awaitCode randState env.requests s with
  | (none, s) => (.blocked, config, s)
  | (some code, s) =>
    let s := s.emit (.logGotCode code)
    let s := s.emit (.exchange code)
    match env.exchange config code with
    | .error err => (.returned (.error (goStr "Token exchange error: " ++ err)), config, s)
    | .ok token => (.returned (.ok token), config, s)

/-- Embedding of `getClient`; the configuration is the one behind the pointer
`config` after the call. -/
def getClient (env : Env) (config : Config) (cacheFileName : GoString) (s : State) :
    Outcome (Except GoError Client) × Config × State :=
  match tokenCacheFile env cacheFileName s with
  | (.error err, s) =>
    (.returned (.error (goStr "Unable to get path to cached credential file. " ++ err)), config, s)
  | (.ok cacheFile, s) =>
    match tokenFromFile env cacheFile s with
    | .ok tok => (.returned (.ok ⟨config, tok⟩), config, s)
    | .error _ =>
      match getTokenFromWeb env config s with
      | (.blocked, config, s) => (.blocked, config, s)
      | (.returned (.error err), config, s) => (.returned (.error err), config, s)
      | (.returned (.ok tok), config, s) =>
        match saveToken env cacheFile tok s with
        | (some err, s) => (.returned (.error err), config, s)
        | (none, s) => (.returned (.ok ⟨config, tok⟩), config, s)

/-- Embedding of `New`. -/
def New (env : Env) (config : Config) (cacheFileName : GoString) (s : State) :
    Outcome (Except GoError Service) × Config × State :=
  match getClient env config cacheFileName s with
  | (.blocked, config, s) => (.blocked, config, s)
  | (.returned (.error err), config, s) => (.returned (.error err), config, s)
  | (.returned (.ok client), config, s) => (.returned (env.sheetsNew client), config, s)

/-! ## example/main.go -/

namespace Example

/-- Embedding of `newService`. -/
def newService (env : Env) (configJsonPath credentialsFileName : GoString) (s : State) :
    Outcome (Except GoError Service) × State :=
  match s.content configJsonPath with
  | none => (.returned (.error (goStr "open " ++ configJsonPath ++ goStr ": no such file or directory")), s)
  | some b =>
    match env.configFromJSON b (goStr "https://www.googleapis.com/auth/spreadsheets") with
    | .error err =>
      (.returned (.error (goStr "Unable to parse client secret file to config: " ++ err)), s)
    | .ok config =>
      match New env config credentialsFileName s with
      | (.blocked, _, s) => (.blocked, s)
      | (.returned (.error err), _, s) =>
        (.returned (.error (goStr "Unable to retrieve Sheets Client " ++ err)), s)
      | (.returned (.ok srv), _, s) => (.returned (.ok srv), s)

/-- The loop of `importSpreadSheet` over the rows from index `i` on. -/
def printRows : Nat → List (List Cell) → State → State
  | _, [], s => s
  | i, row :: rest, s => printRows (i + 1) rest (s.emit (.printRow i row))

/-- Embedding of `importSpreadSheet`. -/
def importSpreadSheet (env : Env) (srv : Service) (spreadsheetId spreadsheetRange : GoString)
    (s : State) : Option GoError × State :=
  let s := s.emit (.valuesGet spreadsheetId spreadsheetRange)
  match env.valuesGet srv spreadsheetId spreadsheetRange with
  | .error err => (some (goStr "Unable to retrieve data from sheet. " ++ err), s)
  | .ok resp => (none, printRows 0 resp.Values s)

/-- Embedding of `exportToSpreadSheet`. -/
def exportToSpreadSheet (env : Env) (srv : Service) (spreadsheetId spreadsheetRange : GoString)
    (rows : List (List Cell)) (s : State) : Option GoError × State :=
  let valueRange : ValueRange := ⟨rows.foldl (fun values r => values ++ [r]) []⟩
  let s := s.emit (.valuesClear spreadsheetId spreadsheetRange)
  match env.valuesClear srv spreadsheetId spreadsheetRange with
  | .error err => (some (goStr "failed to clear sheet. error: " ++ err), s)
  | .ok clearResp =>
    let s := s.emit (.logClearResponse clearResp)
    let s := s.emit (.valuesUpdate spreadsheetId spreadsheetRange valueRange (goStr "RAW"))
    match env.valuesUpdate srv spreadsheetId spreadsheetRange valueRange (goStr "RAW") with
    | .error err => (some (goStr "failed to update sheet. error: " ++ err), s)
    | .ok resp => (none, s.emit (.logUpdateResponse resp))

/-- How the process ends: `log.Fatal` prints its message and exits with status
1; a return from `main` exits with status 0. -/
inductive Exit
  | fatal (msg : GoString)
  | success
  deriving DecidableEq, Repr

/-- The exit status of the process. -/
def Exit.status : Exit → Nat
  | .fatal _ => 1
  | .success => 0

/-- Embedding of `main` on the parsed values of the flags `-mode` and `-id`. -/
def main (env : Env) (mode spreadSheetID : GoString) (s : State) : Outcome Exit × State :=
  if spreadSheetID = [] then
    (.returned (.fatal (goStr "option -id: please set spread sheet id")), s)
  else
    match newService env (goStr "client_secret.json") (goStr "googlesheets-example.json") s with
    | (.blocked, s) => (.blocked, s)
    | (.returned (.error err), s) => (.returned (.fatal err), s)
    | (.returned (.ok srv), s) =>
      if mode = goStr "import" then
        match importSpreadSheet env srv spreadSheetID (goStr "A1:B") s with
        | (some err, s) => (.returned (.fatal err), s)
        | (none, s) => (.returned .success, s)
      else if mode = goStr "export" then
        let rows := [[Cell.str (goStr "a1"), Cell.str (goStr "b1")],
          [Cell.str (goStr "a2"), Cell.str (goStr "b2")]]
        match exportToSpreadSheet env srv spreadSheetID (goStr "A1:B") rows s with
        | (some err, s) => (.returned (.fatal err), s)
        | (none, s) => (.returned .success, s)
      else
        (.returned (.fatal (goStr "option -mode: please set import or export")), s)

end Example

/-! ## Concrete runs -/

/-- A token as the token endpoint issues it. -/
def sampleToken : Token :=
  ⟨goStr "ya29.a0AfH6SM", goStr "Bearer", goStr "1//0gRefresh", ⟨2026, 11, 4, 18, 30, 0, 0, 0⟩⟩

/-- A token whose expiry lies in the year 10000: `time.Date(10000, 1, 1, 0, 0, 0, 0, time.UTC)`. -/
def farToken : Token :=
  ⟨goStr "ya29.a0AfH6SM", goStr "Bearer", [], ⟨10000, 1, 1, 0, 0, 0, 0, 0⟩⟩

/-- A token whose access token is the single byte `0xff`, which is not UTF-8. -/
def rawToken : Token :=
  ⟨[255], goStr "Bearer", [], ⟨2026, 11, 4, 18, 30, 0, 0, 0⟩⟩

/-- A token whose expiry is in the zone `time.FixedZone("", 30)`, thirty seconds
east of UTC. -/
def skewToken : Token :=
  ⟨goStr "ya29.a0AfH6SM", goStr "Bearer", [], ⟨2026, 11, 4, 18, 30, 0, 0, 30⟩⟩

/-- A token whose expiry is in the zone `time.FixedZone("", 86400)`, a day east
of UTC. -/
def dayToken : Token :=
  ⟨goStr "ya29.a0AfH6SM", goStr "Bearer", [], ⟨2026, 11, 4, 18, 30, 0, 0, 86400⟩⟩

/-- The content of a client secret file as the Google API console hands it out
for an installed application. -/
def sampleSecret : GoString :=
  goStr ("\x7b\"installed\":\x7b\"client_id\":\"client-id\"," ++
    "\"client_secret\":\"client-secret\"," ++
    "\"redirect_uris\":[\"urn:ietf:wg:oauth:2.0:oob\"]," ++
    "\"auth_uri\":\"https://accounts.google.com/o/oauth2/auth\"," ++
    "\"token_uri\":\"https://oauth2.googleapis.com/token\"\x7d\x7d")

/-- The client configuration that `google.ConfigFromJSON` reads from
`sampleSecret` for the scope of the spreadsheet API: the client id and secret,
the two endpoints, and the first redirect address of the file. -/
def sampleConfig : Config :=
  ⟨goStr "client-id", goStr "client-secret", goStr "https://accounts.google.com/o/oauth2/auth",
    goStr "https://oauth2.googleapis.com/token", goStr "urn:ietf:wg:oauth:2.0:oob",
    [goStr "https://www.googleapis.com/auth/spreadsheets"]⟩

/-- An environment in which the user `gopher` is logged in, encoding/json is
the codec, the file system accepts every write, the requests `requests` reach
the local server, and the token endpoint answers every code with `issued`. The
one client secret of these runs is `sampleSecret`, from which
`google.ConfigFromJSON` reads the configuration below with the scopes it is
given; every other content, the empty one included, is refused here, with the
error that `google.ConfigFromJSON` has for a file without credentials. -/
def sampleEnv (requests : List Request) (issued : Token) : Env where
  currentUser := .ok ⟨goStr "/home/gopher"⟩
  marshal := goJSONMarshal
  decode := goJSONDecode
  openFileErr := fun _ => none
  writeErr := fun _ => none
  now := 1762281000000000000
  serverURL := goStr "http://127.0.0.1:43210"
  authCodeURL := fun config state => config.AuthURL ++ goStr "?state=" ++ state
  runCommand := fun _ _ => true
  requests := requests
  exchange := fun _ _ => .ok issued
  configFromJSON := fun jsonKey scope =>
    if jsonKey = sampleSecret then
      .ok ⟨goStr "client-id", goStr "client-secret",
        goStr "https://accounts.google.com/o/oauth2/auth",
        goStr "https://oauth2.googleapis.com/token", goStr "urn:ietf:wg:oauth:2.0:oob", [scope]⟩
    else .error (goStr "oauth2/google: no credentials found")
  sheetsNew := fun client => .ok ⟨client⟩
  valuesGet := fun _ _ _ => .ok ⟨[[Cell.str (goStr "a1"), Cell.str (goStr "b1")]]⟩
  valuesClear := fun _ _ _ => .ok (goStr "cleared")
  valuesUpdate := fun _ _ _ _ _ => .ok (goStr "updated")

/-- The environment `sampleEnv` on a full disk: files can be created, writing
to them fails. -/
def fullDiskEnv (requests : List Request) (issued : Token) : Env :=
  let env := sampleEnv requests issued
  ⟨env.currentUser, env.marshal, env.decode, env.openFileErr,
    fun _ => some (goStr "no space left on device"), env.now, env.serverURL, env.authCodeURL,
    env.runCommand, env.requests, env.exchange, env.configFromJSON, env.sheetsNew, env.valuesGet,
    env.valuesClear, env.valuesUpdate⟩

/-- The path of the credential file of the example program for the user `gopher`. -/
def samplePath : GoString := goStr "/home/gopher/.google_oauth_credentials/googlesheets-example.json"

/-- The redirect that carries the authorization code `4/0AX4XfWh` for the state
of `sampleEnv`. -/
def sampleCallback : Request :=
  ⟨goStr "/", goStr "st1762281000000000000", goStr "4/0AX4XfWh"⟩

/-- A state without files and without actions. -/
def emptyState : State := ⟨[], []⟩

/-- The configuration `sampleConfig` after the authorization flow of `sampleEnv`
set its redirect address. -/
def redirectedConfig : Config :=
  ⟨goStr "client-id", goStr "client-secret", goStr "https://accounts.google.com/o/oauth2/auth",
    goStr "https://oauth2.googleapis.com/token", goStr "http://127.0.0.1:43210",
    [goStr "https://www.googleapis.com/auth/spreadsheets"]⟩

/-- Embedding of `Token.Valid` of oauth2: the access token is not empty and the
token has not expired; `expired` tells whether the expiry has passed. -/
def Token.Valid (t : Token) (expired : Bool) : Bool :=
  decide (t.AccessToken ≠ []) && !expired

/-- The configuration behind the pointer `config` after `getTokenFromWeb` set
its redirect address to the address of the local server. -/
def Config.redirected (config : Config) (env : Env) : Config :=
  ⟨config.ClientID, config.ClientSecret, config.AuthURL, config.TokenURL, env.serverURL,
    config.Scopes⟩

/-- A component that `filepath.Clean` keeps as it is: not empty, neither `.` nor
`..`, without a separator. -/
def Normal (c : GoString) : Prop := c ≠ [] ∧ c ≠ dot ∧ c ≠ dotdot ∧ sep ∉ c

/-- A stack of kept components (last kept first) as `filepath.Clean` builds
them: no component is empty, `.` or holds a separator, and a `..` has only `..`
below it and occurs in a relative path only. -/
def Reduced (rooted : Bool) : List GoString → Prop
  | [] => True
  | c :: rest =>
    c ≠ [] ∧ c ≠ dot ∧ sep ∉ c ∧ (c = dotdot → rooted = false ∧ ∀ d ∈ rest, d = dotdot) ∧
      Reduced rooted rest

/-- The name of the credential file inside the cache directory:
`url.QueryEscape` of the given name, with `.json` appended unless the name ends
in `.json` already. -/
def cacheComponent (name : GoString) : GoString :=
  QueryEscape (if HasSuffix name (goStr ".json") then name else name ++ goStr ".json")

/-- The cache directory of a user: `filepath.Join(HomeDir, ".google_oauth_credentials")`. -/
def cacheDir (u : User) : GoString := Join u.HomeDir (goStr ".google_oauth_credentials")

/-- Embedding of `utf8.Valid`: whether the text is well-formed UTF-8. `skip`
counts the bytes of a multi-byte character still to be passed over. -/
def validUTF8 (skip : Nat) : GoString → Bool
  | [] => skip == 0
  | b :: rest =>
    if skip ≠ 0 then validUTF8 (skip - 1) rest
    else if b < 128 then validUTF8 0 rest
    else
      match utf8Len (b :: rest) with
      | 0 => false
      | n + 1 => validUTF8 n rest

/-- A byte that `encoding/json` writes into a string literal as it is and reads
back as it is: ASCII from the space on, other than the quote, the backslash and
the three characters escaped for HTML. -/
def plainByte (b : Nat) : Bool :=
  decide (32 ≤ b ∧ b < 128 ∧ b ≠ 34 ∧ b ≠ 92 ∧ b ≠ 60 ∧ b ≠ 62 ∧ b ≠ 38)

/-- A text of plain bytes. -/
def PlainText (s : GoString) : Prop := ∀ b ∈ s, plainByte b = true

/-- A `time.Time` that `Time.MarshalJSON` can write without loss: its fields are
a date and a time of day (as they are for every `time.Time`), the year is one of
0 to 9999, and the zone offset is a whole number of minutes and less than a day. -/
def Time.WellFormed (t : Time) : Prop :=
  0 ≤ t.year ∧ t.year < 10000 ∧ 1 ≤ t.month ∧ t.month ≤ 12 ∧ 1 ≤ t.day ∧
    t.day ≤ daysIn t.month t.year.toNat ∧ t.hour < 24 ∧ t.minute < 60 ∧ t.second < 60 ∧
    t.nano < 1000000000 ∧ -86400 < t.offset ∧ t.offset < 86400 ∧ t.offset % 60 = 0

/-- The text of a well-formed time between the quotes of its JSON form. -/
def timeBody (t : Time) : GoString :=
  digits4 t.year.toNat ++ 45 :: digits2 t.month ++ 45 :: digits2 t.day ++
    84 :: digits2 t.hour ++ 58 :: digits2 t.minute ++ 58 :: digits2 t.second ++
    fmtNano t.nano ++ fmtZone t.offset

/-- The text of an object member whose value is the string literal with the raw
text `raw` between its quotes. -/
def memberText (key raw : GoString) : GoString :=
  34 :: (key ++ 34 :: 58 :: 34 :: (raw ++ [34]))

/-- The member `expiry` of the JSON form of a token, the closing brace and the
newline. -/
def expiryTail (t : Token) : GoString :=
  memberText (goStr "expiry") (timeBody t.Expiry) ++ [125, 10]

/-- The JSON form of a token from the member `refresh_token` on, which is left
out when the refresh token is empty. -/
def refreshTail (t : Token) : GoString :=
  if t.RefreshToken = [] then expiryTail t
  else memberText (goStr "refresh_token") (jsonEscape true 0 t.RefreshToken) ++ 44 :: expiryTail t

/-- The JSON form of a token from the member `token_type` on, which is left out
when the token type is empty. -/
def typeTail (t : Token) : GoString :=
  if t.TokenType = [] then refreshTail t
  else memberText (goStr "token_type") (jsonEscape true 0 t.TokenType) ++ 44 :: refreshTail t

/-- The JSON form of a token with a well-formed expiry. -/
def marshalText (t : Token) : GoString :=
  123 :: (memberText (goStr "access_token") (jsonEscape true 0 t.AccessToken) ++ 44 :: typeTail t)

/-- The members that the scanner finds in `expiryTail`. -/
def expiryMembers (t : Token) : List (GoString × JKind) :=
  [(goStr "expiry", .str (timeBody t.Expiry) (timeBody t.Expiry))]

/-- The members that the scanner finds in `refreshTail`. -/
def refreshMembers (t : Token) : List (GoString × JKind) :=
  if t.RefreshToken = [] then expiryMembers t
  else (goStr "refresh_token", .str (jsonEscape true 0 t.RefreshToken) t.RefreshToken) ::
    expiryMembers t

/-- The members that the scanner finds in `typeTail`. -/
def typeMembers (t : Token) : List (GoString × JKind) :=
  if t.TokenType = [] then refreshMembers t
  else (goStr "token_type", .str (jsonEscape true 0 t.TokenType) t.TokenType) :: refreshMembers t

/-- A token that `encoding/json` writes without loss: its three texts are
well-formed UTF-8 and its expiry is one that `Time.MarshalJSON` writes without
loss. -/
def Token.Encodable (t : Token) : Prop :=
  validUTF8 0 t.AccessToken = true ∧ validUTF8 0 t.TokenType = true ∧
    validUTF8 0 t.RefreshToken = true ∧ t.Expiry.WellFormed

/-- Whether an action is a call of the spreadsheet API. -/
def Event.isAPICall : Event → Bool
  | .valuesGet _ _ => true
  | .valuesClear _ _ => true
  | .valuesUpdate _ _ _ _ => true
  | _ => false

/-- The state `s'` continues `s` by actions none of which is a call of the
spreadsheet API. -/
def Quiet (s s' : State) : Prop :=
  ∃ l : List Event, s'.trace = s.trace ++ l ∧ ∀ e ∈ l, e.isAPICall = false

/-- Whether the handler lets the request through: the path is not
`/favicon.ico`, the state is `randState` and there is a code. -/
def accepted (randState : GoString) (req : Request) : Bool :=
  decide (req.path ≠ goStr "/favicon.ico" ∧ req.state = randState ∧ req.code ≠ [])

/-! ## Properties of the JSON codec -/

theorem jsonEscape_copy_zero (c : Bool) (s : GoString) :
    jsonEscape c 0 s = jsonEscape true 0 s := by
  cases s with
  | nil => simp [jsonEscape]
  | cons b rest => simp [jsonEscape]

theorem jsonEscape_skip (pre rest : GoString) :
    jsonEscape true pre.length (pre ++ rest) = pre ++ jsonEscape true 0 rest := by
  induction pre with
  | nil => rfl
  | cons b p ih => simp [jsonEscape, ih]

theorem jsonEscape_drop (pre rest : GoString) :
    jsonEscape false pre.length (pre ++ rest) = jsonEscape true 0 rest := by
  induction pre with
  | nil => exact jsonEscape_copy_zero false rest
  | cons b p ih => simp [jsonEscape, ih]

theorem validUTF8_skip (pre rest : GoString) :
    validUTF8 pre.length (pre ++ rest) = validUTF8 0 rest := by
  induction pre with
  | nil => rfl
  | cons b p ih => simp [validUTF8, ih]

theorem pushScanned_nil (x : Except GoError Scanned) : pushScanned [] [] x = x := by
  cases x with
  | error e => rfl
  | ok s => rfl

theorem pushScanned_push (r₁ v₁ r₂ v₂ : GoString) (x : Except GoError Scanned) :
    pushScanned r₁ v₁ (pushScanned r₂ v₂ x) = pushScanned (r₁ ++ r₂) (v₁ ++ v₂) x := by
  cases x with
  | error e => rfl
  | ok s => simp [pushScanned]

theorem scanString_skip (pre r : GoString) (fuel : Nat) :
    scanString (fuel + pre.length) pre.length (pre ++ r)
      = pushScanned pre pre (scanString fuel 0 r) := by
  induction pre with
  | nil => simp [pushScanned_nil]
  | cons b p ih =>
    have : fuel + (b :: p).length = (fuel + p.length) + 1 := by simp; omega
    rw [this]
    simp only [List.cons_append, scanString, List.length_cons, ne_eq, Nat.add_one_ne_zero,
      not_false_eq_true, if_true, Nat.add_sub_cancel, ih, pushScanned_push]
    rfl

theorem utf8Len_spec (b : Nat) (rest : GoString) (n : Nat) (h : utf8Len (b :: rest) = n + 1) :
    ∃ pre rest', rest = pre ++ rest' ∧ pre.length = n ∧ 128 ≤ b ∧ (b = 226 → n = 2) ∧
      ∀ tail, utf8Len (b :: (pre ++ tail)) = n + 1 := by
  cases rest with
  | nil => simp [utf8Len] at h
  | cons b1 r1 =>
    by_cases h2 : 194 ≤ b ∧ b ≤ 223
    · by_cases hc : isCont b1 = true
      · have hn : n = 1 := by simpa [utf8Len, h2, hc] using h.symm
        subst hn
        exact ⟨[b1], r1, rfl, rfl, by omega, by omega, fun tail => by simp [utf8Len, h2, hc]⟩
      · simp [utf8Len, h2, hc] at h
    · cases r1 with
      | nil => simp [utf8Len, h2] at h
      | cons b2 r2 =>
        by_cases h3 : 224 ≤ b ∧ b ≤ 239
        · by_cases hc : (if b = 224 then 160 else 128) ≤ b1 ∧
              b1 ≤ (if b = 237 then 159 else 191) ∧ isCont b2 = true
          · have hn : n = 2 := by simpa [utf8Len, h2, h3, hc] using h.symm
            subst hn
            exact ⟨[b1, b2], r2, rfl, rfl, by omega, fun _ => rfl,
              fun tail => by simp [utf8Len, h2, h3, hc]⟩
          · simp [utf8Len, h2, h3, hc] at h
        · by_cases h4 : 240 ≤ b ∧ b ≤ 244
          · cases r2 with
            | nil => simp [utf8Len, h2, h3, h4] at h
            | cons b3 r3 =>
              by_cases hc : (if b = 240 then 144 else 128) ≤ b1 ∧
                  b1 ≤ (if b = 244 then 143 else 191) ∧ isCont b2 = true ∧ isCont b3 = true
              · have hn : n = 3 := by simpa [utf8Len, h2, h3, h4, hc] using h.symm
                subst hn
                exact ⟨[b1, b2, b3], r3, rfl, rfl, by omega, by omega,
                  fun tail => by simp [utf8Len, h2, h3, h4, hc]⟩
              · simp [utf8Len, h2, h3, h4, hc] at h
          · simp [utf8Len, h2, h3, h4] at h

theorem hexVal_lowerhex (n : Nat) : hexVal (lowerhex n) = some (n % 16) := by
  have hlt : n % 16 < 16 := Nat.mod_lt n (by decide)
  unfold lowerhex
  by_cases h : n % 16 < 10
  · have h1 : 48 ≤ 48 + n % 16 ∧ 48 + n % 16 ≤ 57 := by omega
    simp only [h, if_true, hexVal, h1, and_self]
    congr 1
    omega
  · have h1 : ¬ (48 ≤ 87 + n % 16 ∧ 87 + n % 16 ≤ 57) := by omega
    have h2 : 97 ≤ 87 + n % 16 ∧ 87 + n % 16 ≤ 102 := by omega
    simp only [h, if_false, hexVal, h1, h2, and_self, if_true]
    congr 1
    omega

theorem getu4_escape (b : Nat) (hb : b < 256) (R : GoString) :
    getu4 (48 :: 48 :: lowerhex (b / 16) :: lowerhex (b % 16) :: R) = some b := by
  have h0 : hexVal 48 = some 0 := by decide
  simp only [getu4, h0, hexVal_lowerhex]
  congr 1
  omega

/-- One character of a well-formed text: `appendString` writes it as `X`, and
the scanner reads `X` back as that character. -/
theorem escape_step_ascii (b : Nat) (hb : b < 128) :
    ∃ X : GoString, 1 ≤ X.length ∧
      (∀ tl, jsonEscape true 0 (b :: tl) = X ++ jsonEscape true 0 tl) ∧
      ∀ f R, scanString (f + 1) 0 (X ++ R) = pushScanned X [b] (scanString f 0 R) := by
  by_cases h92 : b = 92
  · subst h92
    exact ⟨[92, 92], by simp, fun tl => by simp [jsonEscape], fun f R => by simp [scanString]⟩
  by_cases h34 : b = 34
  · subst h34
    exact ⟨[92, 34], by simp, fun tl => by simp [jsonEscape], fun f R => by simp [scanString]⟩
  by_cases h8 : b = 8
  · subst h8
    exact ⟨[92, 98], by simp, fun tl => by simp [jsonEscape], fun f R => by simp [scanString]⟩
  by_cases h12 : b = 12
  · subst h12
    exact ⟨[92, 102], by simp, fun tl => by simp [jsonEscape], fun f R => by simp [scanString]⟩
  by_cases h10 : b = 10
  · subst h10
    exact ⟨[92, 110], by simp, fun tl => by simp [jsonEscape], fun f R => by simp [scanString]⟩
  by_cases h13 : b = 13
  · subst h13
    exact ⟨[92, 114], by simp, fun tl => by simp [jsonEscape], fun f R => by simp [scanString]⟩
  by_cases h9 : b = 9
  · subst h9
    exact ⟨[92, 116], by simp, fun tl => by simp [jsonEscape], fun f R => by simp [scanString]⟩
  by_cases hu : b < 32 ∨ b = 60 ∨ b = 62 ∨ b = 38
  · refine ⟨[92, 117, 48, 48, lowerhex (b / 16), lowerhex (b % 16)], by simp,
      fun tl => by simp [jsonEscape, hb, h92, h34, h8, h12, h10, h13, h9, hu], fun f R => ?_⟩
    have hg := getu4_escape b (by omega) R
    have hs : ¬ (55296 ≤ b ∧ b ≤ 57343) := by omega
    simp [scanString, hg, hs, encodeRune, hb]
  · have h32 : ¬ b < 32 := fun h => hu (Or.inl h)
    exact ⟨[b], by simp,
      fun tl => by simp [jsonEscape, hb, h92, h34, h8, h12, h10, h13, h9, hu],
      fun f R => by simp [scanString, hb, h92, h34, h32]⟩

theorem escape_step_multi (b : Nat) (tl : GoString) (hb : ¬ b < 128)
    (hv : validUTF8 0 (b :: tl) = true) :
    ∃ (X v tl' : GoString) (k : Nat), b :: tl = v ++ tl' ∧ 1 ≤ v.length ∧
      validUTF8 0 tl' = true ∧
      jsonEscape true 0 (b :: tl) = X ++ jsonEscape true 0 tl' ∧ 1 ≤ k ∧ k ≤ X.length ∧
      ∀ f R, scanString (f + k) 0 (X ++ R) = pushScanned X v (scanString f 0 R) := by
  cases hlen : utf8Len (b :: tl) with
  | zero => simp [validUTF8, hb, hlen] at hv
  | succ n =>
    obtain ⟨pre, tl', htl, hpre, h128, h226, hall⟩ := utf8Len_spec b tl n hlen
    subst htl
    have hv' : validUTF8 0 tl' = true := by
      have : validUTF8 n (pre ++ tl') = true := by simpa [validUTF8, hb, hlen] using hv
      rw [← hpre, validUTF8_skip] at this
      exact this
    have h34 : b ≠ 34 := by omega
    have h32 : ¬ b < 32 := by omega
    have h92 : b ≠ 92 := by omega
    by_cases hls : b = 226 ∧ (pre ++ tl').take 2 = [128, 168]
    · obtain ⟨hb226, htake⟩ := hls
      have hn : n = 2 := h226 hb226
      subst hn
      have hpre2 : pre = [128, 168] := by
        have : (pre ++ tl').take 2 = pre := by
          rw [← hpre]; simp
        rw [← this, htake]
      subst hpre2
      subst hb226
      refine ⟨goStr "\\u2028", [226, 128, 168], tl', 1, rfl, by simp, hv', ?_, le_refl 1,
        by decide, fun f R => ?_⟩
      · have hlen' : utf8Len (226 :: 128 :: 168 :: tl') = 2 + 1 := hlen
        rw [jsonEscape]
        simp only [List.cons_append, List.nil_append, hlen']
        simp [jsonEscape_copy_zero false tl', jsonEscape]
      · have hg : getu4 (50 :: 48 :: 50 :: 56 :: R) = some 8232 := by
          simp [getu4, hexVal]
        have he : encodeRune 8232 = [226, 128, 168] := by decide
        have hX : goStr "\\u2028" = [92, 117, 50, 48, 50, 56] := by decide
        simp [hX, scanString, hg, he]
    by_cases hps : b = 226 ∧ (pre ++ tl').take 2 = [128, 169]
    · obtain ⟨hb226, htake⟩ := hps
      have hn : n = 2 := h226 hb226
      subst hn
      have hpre2 : pre = [128, 169] := by
        have : (pre ++ tl').take 2 = pre := by
          rw [← hpre]; simp
        rw [← this, htake]
      subst hpre2
      subst hb226
      refine ⟨goStr "\\u2029", [226, 128, 169], tl', 1, rfl, by simp, hv', ?_, le_refl 1,
        by decide, fun f R => ?_⟩
      · have hlen' : utf8Len (226 :: 128 :: 169 :: tl') = 2 + 1 := hlen
        rw [jsonEscape]
        simp only [List.cons_append, List.nil_append, hlen']
        simp [jsonEscape_copy_zero false tl', jsonEscape]
      · have hg : getu4 (50 :: 48 :: 50 :: 57 :: R) = some 8233 := by
          simp [getu4, hexVal]
        have he : encodeRune 8233 = [226, 128, 169] := by decide
        have hX : goStr "\\u2029" = [92, 117, 50, 48, 50, 57] := by decide
        simp [hX, scanString, hg, he]
    · refine ⟨b :: pre, b :: pre, tl', n + 1, rfl, by simp, hv', ?_, by omega,
        by simp [hpre], fun f R => ?_⟩
      · have := jsonEscape_skip pre tl'
        rw [hpre] at this
        simp [jsonEscape, hb, hlen, hls, hps, this]
      · have h1 : f + (n + 1) = (f + n) + 1 := by omega
        have h2 := scanString_skip pre R f
        rw [hpre] at h2
        rw [h1]
        simp only [List.cons_append, scanString, ne_eq, not_true_eq_false, if_false, h34, h32,
          h92, hb, hall R, h2, pushScanned_push]
        rfl

theorem escape_step (b : Nat) (tl : GoString) (hv : validUTF8 0 (b :: tl) = true) :
    ∃ (X v tl' : GoString) (k : Nat), b :: tl = v ++ tl' ∧ 1 ≤ v.length ∧
      validUTF8 0 tl' = true ∧
      jsonEscape true 0 (b :: tl) = X ++ jsonEscape true 0 tl' ∧ 1 ≤ k ∧ k ≤ X.length ∧
      ∀ f R, scanString (f + k) 0 (X ++ R) = pushScanned X v (scanString f 0 R) := by
  by_cases hb : b < 128
  · obtain ⟨X, hX, hesc, hscan⟩ := escape_step_ascii b hb
    exact ⟨X, [b], tl, 1, rfl, by simp, by simpa [validUTF8, hb] using hv, hesc tl,
      le_refl 1, hX, hscan⟩
  · exact escape_step_multi b tl hb hv

/-- The scanner reads the escaped form of a well-formed text back as that text. -/
theorem scanString_jsonEscape : ∀ (len : Nat) (s : GoString), s.length ≤ len →
    validUTF8 0 s = true → ∀ (R : GoString) (fuel : Nat),
    (jsonEscape true 0 s).length + 1 ≤ fuel →
    scanString fuel 0 (jsonEscape true 0 s ++ 34 :: R) = .ok ⟨jsonEscape true 0 s, s, R⟩ := by
  intro len
  induction len with
  | zero =>
    intro s hs _ R fuel hf
    have : s = [] := List.length_eq_zero.mp (by omega)
    subst this
    obtain ⟨f, rfl⟩ : ∃ f, fuel = f + 1 := ⟨fuel - 1, by omega⟩
    simp [jsonEscape, scanString]
  | succ len ih =>
    intro s hs hv R fuel hf
    cases s with
    | nil =>
      obtain ⟨f, rfl⟩ : ∃ f, fuel = f + 1 := ⟨fuel - 1, by omega⟩
      simp [jsonEscape, scanString]
    | cons b tl =>
      obtain ⟨X, v, tl', k, hsplit, hvlen, hv', hesc, hk1, hk, hscan⟩ := escape_step b tl hv
      have hl : tl'.length ≤ len := by
        have := congrArg List.length hsplit
        simp only [List.length_cons, List.length_append] at this hs
        omega
      rw [hesc] at hf ⊢
      simp only [List.length_append] at hf
      obtain ⟨f, rfl⟩ : ∃ f, fuel = f + k := ⟨fuel - k, by omega⟩
      rw [List.append_assoc, hscan, ih tl' hl hv' R f (by omega), hsplit]
      rfl

theorem jsonEscape_plain (s : GoString) (h : PlainText s) : jsonEscape true 0 s = s := by
  induction s with
  | nil => rfl
  | cons b rest ih =>
    have hb := h b (List.mem_cons_self _ _)
    simp only [plainByte, decide_eq_true_eq] at hb
    obtain ⟨h1, h2, h3, h4, h5, h6, h7⟩ := hb
    have ih' := ih (fun c hc => h c (List.mem_cons_of_mem _ hc))
    unfold jsonEscape
    simp only [ne_eq, not_true_eq_false, if_false, h2, if_true, h4, h3, ih']
    have e8 : b ≠ 8 := by omega
    have e12 : b ≠ 12 := by omega
    have e10 : b ≠ 10 := by omega
    have e13 : b ≠ 13 := by omega
    have e9 : b ≠ 9 := by omega
    have e32 : ¬ b < 32 := by omega
    simp [e8, e12, e10, e13, e9, e32, h5, h6, h7]

theorem scanString_plain (s rest : GoString) (h : PlainText s) (fuel : Nat)
    (hf : s.length + 1 ≤ fuel) :
    scanString fuel 0 (s ++ 34 :: rest) = .ok ⟨s, s, rest⟩ := by
  induction s generalizing fuel with
  | nil =>
    obtain ⟨f, rfl⟩ : ∃ f, fuel = f + 1 := ⟨fuel - 1, by simp at hf; omega⟩
    simp [scanString]
  | cons b bs ih =>
    obtain ⟨f, rfl⟩ : ∃ f, fuel = f + 1 := ⟨fuel - 1, by simp at hf; omega⟩
    have hb := h b (List.mem_cons_self _ _)
    simp only [plainByte, decide_eq_true_eq] at hb
    obtain ⟨h1, h2, h3, h4, h5, h6, h7⟩ := hb
    have ih' := ih (fun c hc => h c (List.mem_cons_of_mem _ hc)) f
      (by simp at hf ⊢; omega)
    have e32 : ¬ b < 32 := by omega
    simp [scanString, h3, h4, e32, h2, ih', pushScanned]

theorem isDigit_digit (n : Nat) : isDigit (48 + n % 10) = true := by
  simp [isDigit]; omega

theorem atoi_digits2 (n : Nat) (h : n < 100) : atoi (digits2 n) = some n := by
  simp [atoi, digits2, isDigit_digit]
  omega

theorem atoi_digits4 (n : Nat) (h : n < 10000) : atoi (digits4 n) = some n := by
  simp [atoi, digits4, digits2, isDigit_digit]
  omega

theorem parseZone_fmtZone (off : Int) (h₁ : -86400 < off) (h₂ : off < 86400)
    (h₃ : off % 60 = 0) : parseZone (fmtZone off) = some off := by
  by_cases h0 : off = 0
  · subst h0; decide
  · obtain ⟨a, ha⟩ : ∃ a : Nat, off.natAbs = a := ⟨_, rfl⟩
    have habs := Int.natAbs_eq off
    rw [ha] at habs
    have ha' : a < 86400 := by omega
    have h60 : 60 ≤ a := by omega
    have hmod : a % 60 = 0 := by omega
    obtain ⟨q, hq⟩ : ∃ q, a / 60 = q := ⟨_, rfl⟩
    have hq' : q < 1440 := by omega
    have hd := atoi_digits2 (q / 60) (by omega)
    have hm := atoi_digits2 (q % 60) (by omega)
    simp only [digits2] at hd hm
    by_cases hneg : off < 0
    · simp only [fmtZone, h0, if_false, hneg, ha, h60, and_self, if_true, hq, digits2,
        List.cons_append, List.nil_append, parseZone, hd, hm]
      simp
      omega
    · simp only [fmtZone, h0, if_false, hneg, false_and, ha, hq, digits2,
        List.cons_append, List.nil_append, parseZone, hd, hm]
      simp
      omega

theorem trimZeros_concat (l : GoString) (a : Nat) :
    trimZeros (l ++ [a]) = if a = 48 then trimZeros l else l ++ [a] := by
  by_cases h : a = 48
  · simp [trimZeros, List.dropWhile, h]
  · simp [trimZeros, List.dropWhile, h]

theorem trimZeros_spec (l : GoString) :
    ∃ k, l = trimZeros l ++ List.replicate k 48 := by
  induction l using List.reverseRecOn with
  | nil => exact ⟨0, by simp [trimZeros]⟩
  | append_singleton l a ih =>
    obtain ⟨k, hk⟩ := ih
    rw [trimZeros_concat]
    by_cases h : a = 48
    · refine ⟨k + 1, ?_⟩
      rw [if_pos h, List.replicate_succ', ← List.append_assoc, ← hk, h]
    · exact ⟨0, by simp [h]⟩

theorem digits9_isDigit (n : Nat) : ∀ c ∈ digits9 n, isDigit c = true := by
  intro c hc
  simp only [digits9, digits2, List.cons_append, List.nil_append, List.mem_cons,
    List.mem_singleton, List.not_mem_nil, or_false] at hc
  rcases hc with h | h | h | h | h | h | h | h | h <;> subst h <;> exact isDigit_digit _

theorem trimZeros_digits9 (n : Nat) (hn : n < 1000000000) :
    (∀ c ∈ trimZeros (digits9 n), isDigit c = true) ∧
      parseNanoseconds (trimZeros (digits9 n)) = n ∧ (n ≠ 0 → trimZeros (digits9 n) ≠ []) := by
  obtain ⟨k, hk⟩ := trimZeros_spec (digits9 n)
  have hlen : (trimZeros (digits9 n)).length + k = 9 := by
    have := congrArg List.length hk
    simp only [List.length_append, List.length_replicate] at this
    rw [← this]
    simp [digits9, digits2]
  refine ⟨?_, ?_, ?_⟩
  · intro c hc
    exact digits9_isDigit n c (by rw [hk]; exact List.mem_append_left _ hc)
  · unfold parseNanoseconds
    have h9 : 9 - (trimZeros (digits9 n)).length = k := by omega
    rw [List.take_of_length_le (by omega), h9, ← hk]
    simp [digits9, digits2]
    omega
  · intro h0 he
    rw [he] at hk hlen
    simp only [List.length_nil, Nat.zero_add] at hlen
    subst hlen
    simp [digits9, digits2, List.replicate] at hk
    omega

theorem takeWhile_digits (l rest : GoString) (z : Nat) (hl : ∀ c ∈ l, isDigit c = true)
    (hz : isDigit z = false) :
    (l ++ z :: rest).takeWhile isDigit = l ∧ skipDigits (l ++ z :: rest) = z :: rest := by
  induction l with
  | nil => simp [List.takeWhile, skipDigits, hz]
  | cons c cs ih =>
    have hc := hl c (List.mem_cons_self _ _)
    obtain ⟨i₁, i₂⟩ := ih (fun x hx => hl x (List.mem_cons_of_mem _ hx))
    simp [List.takeWhile, skipDigits, hc, i₁, i₂]

theorem fmtZone_head (off : Int) :
    ∃ z zs, fmtZone off = z :: zs ∧ isDigit z = false ∧ z ≠ 46 ∧ z ≠ 44 := by
  unfold fmtZone
  split
  · exact ⟨90, [], rfl, by decide, by decide, by decide⟩
  · split
    · exact ⟨45, _, rfl, by decide, by decide, by decide⟩
    · exact ⟨43, _, rfl, by decide, by decide, by decide⟩

theorem parseSecondsTail_fmt (n : Nat) (off : Int) (hn : n < 1000000000)
    (h₁ : -86400 < off) (h₂ : off < 86400) (h₃ : off % 60 = 0) :
    parseSecondsTail (fmtNano n ++ fmtZone off) = some (n, off) := by
  obtain ⟨z, zs, hz, hd, h46, h44⟩ := fmtZone_head off
  have hzone := parseZone_fmtZone off h₁ h₂ h₃
  rw [hz] at hzone
  have hnil : parseNanoseconds [] = 0 := by decide
  by_cases h0 : n = 0
  · subst h0
    cases zs with
    | nil => simp [fmtNano, hz, parseSecondsTail, hzone, hnil]
    | cons d ds => simp [fmtNano, hz, parseSecondsTail, hzone, hnil, h46, h44]
  · obtain ⟨t₁, t₂, t₃⟩ := trimZeros_digits9 n hn
    obtain ⟨d, ds, hds⟩ : ∃ d ds, trimZeros (digits9 n) = d :: ds := by
      cases h : trimZeros (digits9 n) with
      | nil => exact absurd h (t₃ h0)
      | cons d ds => exact ⟨d, ds, rfl⟩
    have hdd : isDigit d = true := t₁ d (by rw [hds]; exact List.mem_cons_self _ _)
    obtain ⟨w₁, w₂⟩ := takeWhile_digits (trimZeros (digits9 n)) zs z t₁ hd
    rw [hds] at w₁ w₂ t₂
    simp only [List.cons_append] at w₁ w₂
    simp [fmtNano, h0, hz, hds, parseSecondsTail, hdd, w₁, w₂, hzone, t₂]

theorem atoi_two (n : Nat) (h : n < 100) : atoi [48 + n / 10 % 10, 48 + n % 10] = some n :=
  atoi_digits2 n h

theorem atoi_four (n : Nat) (h : n < 10000) :
    atoi [48 + n / 100 / 10 % 10, 48 + n / 100 % 10, 48 + n / 10 % 10, 48 + n % 10] = some n :=
  atoi_digits4 n h

theorem plainByte_of_digit (b : Nat) (h : isDigit b = true) : plainByte b = true := by
  simp only [isDigit, decide_eq_true_eq] at h
  simp only [plainByte, decide_eq_true_eq]
  omega

theorem fmtNano_plain (n : Nat) (hn : n < 1000000000) : PlainText (fmtNano n) := by
  intro b hb
  unfold fmtNano at hb
  split at hb
  · simp at hb
  · rcases List.mem_cons.mp hb with h | h
    · subst h; decide
    · exact plainByte_of_digit b ((trimZeros_digits9 n hn).1 b h)

theorem fmtZone_plain (off : Int) : PlainText (fmtZone off) := by
  intro b hb
  unfold fmtZone at hb
  split at hb
  · simp at hb; subst hb; decide
  · simp only [digits2, List.cons_append, List.nil_append, List.mem_cons, List.mem_singleton,
      List.not_mem_nil, or_false] at hb
    rcases hb with h | h | h | h | h | h
    · subst h; split <;> decide
    · subst h; exact plainByte_of_digit _ (isDigit_digit _)
    · subst h; exact plainByte_of_digit _ (isDigit_digit _)
    · subst h; decide
    · subst h; exact plainByte_of_digit _ (isDigit_digit _)
    · subst h; exact plainByte_of_digit _ (isDigit_digit _)

theorem timeMarshalJSON_wellFormed (t : Time) (h : t.WellFormed) :
    timeMarshalJSON t = .ok (34 :: (timeBody t ++ [34])) := by
  obtain ⟨h1, h2, _, _, _, _, _, _, _, _, h11, h12, _⟩ := h
  have ha : ¬ (24 ≤ t.offset.natAbs / 60 / 60) := by omega
  have hy : ¬ (t.year < 0 ∨ 10000 ≤ t.year) := by omega
  simp only [timeMarshalJSON, hy, ha, if_false, timeBody]

theorem timeBody_plain (t : Time) (h : t.WellFormed) : PlainText (timeBody t) := by
  obtain ⟨_, _, _, _, _, _, _, _, _, h10, _, _, _⟩ := h
  intro b hb
  simp only [timeBody, digits4, digits2, List.cons_append, List.nil_append, List.append_assoc,
    List.mem_cons, List.mem_append] at hb
  rcases hb with h | h | h | h | h | h | h | h | h | h | h | h | h | h | h | h | h | h | h | h | h
  all_goals first
    | exact fmtNano_plain _ h10 b h
    | exact fmtZone_plain _ b h
    | (subst h; first | exact plainByte_of_digit _ (isDigit_digit _) | decide)

theorem parseRFC3339_timeBody (t : Time) (h : t.WellFormed) :
    parseRFC3339 (timeBody t) = some t := by
  obtain ⟨h1, h2, h3, h4, h5, h6, h7, h8, h9, h10, h11, h12, h13⟩ := h
  have hy : t.year.toNat < 10000 := by omega
  have hyy : Int.ofNat t.year.toNat = t.year := Int.toNat_of_nonneg h1
  have hh : ¬ (48 + t.hour % 10 = 58) := by omega
  have htail := parseSecondsTail_fmt t.nano t.offset h10 h11 h12 h13
  have hmax : t.year ⊔ 0 = t.year := max_eq_left h1
  have a1 := atoi_four _ hy
  have a2 := atoi_two _ (show t.month < 100 by omega)
  have a3 := atoi_two _ (show t.day < 100 by
    unfold daysIn at h6; split at h6 <;> (try split at h6) <;> omega)
  have a4 := atoi_two _ (show t.hour < 100 by omega)
  have a5 := atoi_two _ (show t.minute < 100 by omega)
  have a6 := atoi_two _ (show t.second < 100 by omega)
  simp only [timeBody, digits4, digits2, List.cons_append, List.nil_append, List.append_assoc,
    parseRFC3339, List.take_succ_cons, List.take_zero, List.drop_succ_cons, List.drop_zero,
    a1, a2, a3]
  simp only [List.cons.injEq, hh, and_true, if_false, List.take_succ_cons, List.take_zero,
    List.drop_succ_cons, List.drop_zero, a4, a5, a6, htail]
  simp [h3, h4, h5, h6, h7, h8, h9, hyy, hmax]

theorem parseMember_scan (fuel depth : Nat) (first : Bool) (key raw v rest : GoString) (d : Nat)
    (hk : PlainText key)
    (hv : ∀ (R : GoString) (f : Nat), raw.length + 1 ≤ f →
      scanString f 0 (raw ++ 34 :: R) = .ok ⟨raw, v, R⟩)
    (hd : isSpace d = false) :
    parseMembers (fuel + 2) depth first (memberText key raw ++ d :: rest) =
      if d = 125 then .ok ([(key, .str raw v)], rest)
      else if d = 44 then
        match parseMembers (fuel + 1) depth false rest with
        | .ok (ms, rest4) => .ok ((key, .str raw v) :: ms, rest4)
        | .error e => .error e
      else .error errInvalid := by
  have h34 : isSpace 34 = false := by decide
  have h58 : isSpace 58 = false := by decide
  have hkey := scanString_plain key (58 :: 34 :: (raw ++ 34 :: d :: rest)) hk
    ((key ++ 34 :: 58 :: 34 :: (raw ++ 34 :: d :: rest)).length + 1) (by simp)
  have hval := hv (d :: rest) ((raw ++ 34 :: d :: rest).length + 1) (by simp)
  simp only [memberText, List.cons_append, List.append_assoc, List.nil_append]
  rw [parseMembers]
  simp only [skipSpace, h34, Bool.false_eq_true, if_false, hkey, h58]
  rw [parseValue]
  simp only [skipSpace, h34, Bool.false_eq_true, if_false, if_true, hval, hd]
  simp

theorem goJSONMarshal_encodable (t : Token) (h : t.Expiry.WellFormed) :
    goJSONMarshal t = .ok (marshalText t) := by
  have l1 : goStr "\x7b\"access_token\":" = 123 :: 34 :: (goStr "access_token" ++ [34, 58]) := by
    decide
  have l2 : goStr ",\"token_type\":" = 44 :: 34 :: (goStr "token_type" ++ [34, 58]) := by decide
  have l3 : goStr ",\"refresh_token\":" = 44 :: 34 :: (goStr "refresh_token" ++ [34, 58]) := by
    decide
  have l4 : goStr ",\"expiry\":" = 44 :: 34 :: (goStr "expiry" ++ [34, 58]) := by decide
  have l5 : goStr "\x7d\n" = [125, 10] := by decide
  simp only [goJSONMarshal, timeMarshalJSON_wellFormed _ h, jsonQuote, l1, l2, l3, l4, l5,
    marshalText, typeTail, refreshTail, expiryTail, memberText]
  by_cases h1 : t.TokenType = [] <;> by_cases h2 : t.RefreshToken = [] <;> simp [h1, h2]

theorem scan_text (s : GoString) (h : validUTF8 0 s = true) (R : GoString) (f : Nat)
    (hf : (jsonEscape true 0 s).length + 1 ≤ f) :
    scanString f 0 (jsonEscape true 0 s ++ 34 :: R) = .ok ⟨jsonEscape true 0 s, s, R⟩ :=
  scanString_jsonEscape s.length s (le_refl _) h R f hf

theorem parse_expiryTail (t : Token) (h : t.Encodable) (fuel : Nat) (first : Bool) :
    parseMembers (fuel + 2) 1 first (expiryTail t) = .ok (expiryMembers t, [10]) := by
  have hk : PlainText (goStr "expiry") := by unfold PlainText; decide
  have := parseMember_scan fuel 1 first (goStr "expiry") (timeBody t.Expiry)
    (timeBody t.Expiry) [10] 125 hk
    (fun R f hf => scanString_plain _ R (timeBody_plain _ h.2.2.2) f hf) (by decide)
  simpa [expiryTail, expiryMembers] using this

theorem parse_refreshTail (t : Token) (h : t.Encodable) (fuel : Nat) :
    parseMembers (fuel + 3) 1 false (refreshTail t) = .ok (refreshMembers t, [10]) := by
  by_cases h2 : t.RefreshToken = []
  · simpa [refreshTail, refreshMembers, h2] using parse_expiryTail t h (fuel + 1) false
  · have hk : PlainText (goStr "refresh_token") := by unfold PlainText; decide
    have := parseMember_scan (fuel + 1) 1 false (goStr "refresh_token")
      (jsonEscape true 0 t.RefreshToken) t.RefreshToken
      (expiryTail t) 44 hk (scan_text _ h.2.2.1) (by decide)
    rw [parse_expiryTail t h fuel false] at this
    simpa [refreshTail, refreshMembers, h2] using this

theorem parse_typeTail (t : Token) (h : t.Encodable) (fuel : Nat) :
    parseMembers (fuel + 4) 1 false (typeTail t) = .ok (typeMembers t, [10]) := by
  by_cases h1 : t.TokenType = []
  · simpa [typeTail, typeMembers, h1] using parse_refreshTail t h (fuel + 1)
  · have hk : PlainText (goStr "token_type") := by unfold PlainText; decide
    have := parseMember_scan (fuel + 2) 1 false (goStr "token_type")
      (jsonEscape true 0 t.TokenType) t.TokenType
      (refreshTail t) 44 hk (scan_text _ h.2.1) (by decide)
    rw [parse_refreshTail t h fuel] at this
    simpa [typeTail, typeMembers, h1] using this

theorem parse_marshalText (t : Token) (h : t.Encodable) (fuel : Nat) :
    parseMembers (fuel + 5) 1 true
        (memberText (goStr "access_token") (jsonEscape true 0 t.AccessToken) ++ 44 :: typeTail t)
      = .ok ((goStr "access_token", .str (jsonEscape true 0 t.AccessToken) t.AccessToken) ::
          typeMembers t, [10]) := by
  have hk : PlainText (goStr "access_token") := by unfold PlainText; decide
  have := parseMember_scan (fuel + 3) 1 true (goStr "access_token")
    (jsonEscape true 0 t.AccessToken) t.AccessToken
    (typeTail t) 44 hk (scan_text _ h.1) (by decide)
  rw [parse_typeTail t h fuel] at this
  simpa using this

theorem assign_members (t : Token) (h : t.Expiry.WellFormed) :
    assignMembers Token.zero none
      ((goStr "access_token", .str (jsonEscape true 0 t.AccessToken) t.AccessToken) ::
        typeMembers t) = .ok t := by
  have k1 : foldName 0 (goStr "access_token") = goStr "ACCESS_TOKEN" := by decide
  have k2 : foldName 0 (goStr "token_type") = goStr "TOKEN_TYPE" := by decide
  have k3 : foldName 0 (goStr "refresh_token") = goStr "REFRESH_TOKEN" := by decide
  have k4 : foldName 0 (goStr "expiry") = goStr "EXPIRY" := by decide
  have n12 : goStr "TOKEN_TYPE" ≠ goStr "ACCESS_TOKEN" := by decide
  have n13 : goStr "REFRESH_TOKEN" ≠ goStr "ACCESS_TOKEN" := by decide
  have n14 : goStr "EXPIRY" ≠ goStr "ACCESS_TOKEN" := by decide
  have n23 : goStr "REFRESH_TOKEN" ≠ goStr "TOKEN_TYPE" := by decide
  have n24 : goStr "EXPIRY" ≠ goStr "TOKEN_TYPE" := by decide
  have n34 : goStr "EXPIRY" ≠ goStr "REFRESH_TOKEN" := by decide
  have ht := parseRFC3339_timeBody _ h
  obtain ⟨a, ty, r, e⟩ := t
  simp only at ht
  by_cases h1 : ty = [] <;> by_cases h2 : r = [] <;>
    simp [typeMembers, refreshMembers, expiryMembers, assignMembers, assignString,
      timeUnmarshalJSON, Token.zero, k1, k2, k3, k4, n12, n13, n14, n23, n24, n34, h1, h2, ht]

/-- The JSON codec reads back every encodable token from its encoding. -/
theorem goJSON_roundtrip (t : Token) (h : t.Encodable) :
    goJSONMarshal t = .ok (marshalText t) ∧ goJSONDecode (marshalText t) = .ok t := by
  refine ⟨goJSONMarshal_encodable t h.2.2.2, ?_⟩
  have hs : isSpace 123 = false := by decide
  have hlen : ∃ f, (marshalText t).length + 1 = f + 5 := by
    refine ⟨(marshalText t).length - 4, ?_⟩
    have : 5 ≤ (marshalText t).length := by
      simp [marshalText, memberText]
      omega
    omega
  obtain ⟨f, hf⟩ := hlen
  unfold goJSONDecode
  rw [hf]
  simp only [marshalText, skipSpace, hs, Bool.false_eq_true, if_false, if_true]
  rw [parse_marshalText t h f]
  exact assign_members t h.2.2.2

/-! ## Properties of the state -/

theorem content_store (s : State) (path data : GoString) :
    (s.store path data).content path = some data := by
  simp [State.store, State.content, List.lookup]

theorem content_emit (s : State) (e : Event) (path : GoString) :
    (s.emit e).content path = s.content path := rfl

theorem files_emit (s : State) (e : Event) : (s.emit e).files = s.files := rfl

theorem trace_emit (s : State) (e : Event) : (s.emit e).trace = s.trace ++ [e] := rfl

theorem trace_store (s : State) (path data : GoString) : (s.store path data).trace = s.trace := rfl

theorem Quiet.refl (s : State) : Quiet s s := ⟨[], by simp, by simp⟩

theorem Quiet.trans {s t u : State} (h₁ : Quiet s t) (h₂ : Quiet t u) : Quiet s u := by
  obtain ⟨l₁, e₁, q₁⟩ := h₁
  obtain ⟨l₂, e₂, q₂⟩ := h₂
  refine ⟨l₁ ++ l₂, by rw [e₂, e₁, List.append_assoc], ?_⟩
  intro e he
  rcases List.mem_append.mp he with h | h
  · exact q₁ e h
  · exact q₂ e h

theorem Quiet.emit (s : State) (e : Event) (he : e.isAPICall = false) : Quiet s (s.emit e) :=
  ⟨[e], rfl, by simpa using he⟩

theorem Quiet.store (s : State) (path data : GoString) : Quiet s (s.store path data) :=
  ⟨[], by simp [State.store], by simp⟩

theorem Quiet.mem {s t : State} (h : Quiet s t) {e : Event} (he : e ∈ s.trace) : e ∈ t.trace := by
  obtain ⟨l, el, _⟩ := h
  rw [el]
  exact List.mem_append_left l he

/-! ## Properties of service.go -/

theorem tokenCacheFile_state (env : Env) (name : GoString) (s : State) :
    (tokenCacheFile env name s).2 = s ∨
      ∃ dir, (tokenCacheFile env name s).2 = s.emit (.mkdirAll dir 448) := by
  unfold tokenCacheFile
  cases env.currentUser with
  | error e => exact Or.inl rfl
  | ok u => exact Or.inr ⟨_, rfl⟩

theorem tokenCacheFile_ok_state (env : Env) (name : GoString) (s : State) (file : GoString)
    (h : (tokenCacheFile env name s).1 = .ok file) :
    ∃ dir, (tokenCacheFile env name s).2 = s.emit (.mkdirAll dir 448) := by
  unfold tokenCacheFile at h ⊢
  cases hu : env.currentUser with
  | error e => simp [hu] at h
  | ok u => exact ⟨_, rfl⟩

theorem tokenFromFile_emit (env : Env) (file : GoString) (s : State) (e : Event) :
    tokenFromFile env file (s.emit e) = tokenFromFile env file s := rfl

theorem saveToken_open_ok (env : Env) (file : GoString) (t : Token) (s : State)
    (hopen : env.openFileErr file = none) :
    saveToken env file t s =
      (none, (encodeToFile env file t ((s.emit (.savingCredential file)).store file [])).2) := by
  simp [saveToken, hopen]

theorem encodeToFile_ok (env : Env) (file : GoString) (t : Token) (s : State) (data : GoString)
    (henc : env.marshal t = .ok data) (hwrite : env.writeErr file = none) :
    encodeToFile env file t s = (none, s.store file ((s.content file).getD [] ++ data)) := by
  simp [encodeToFile, henc, hwrite]

theorem saveToken_content (env : Env) (file : GoString) (t : Token) (s : State) (data : GoString)
    (hopen : env.openFileErr file = none) (henc : env.marshal t = .ok data)
    (hwrite : env.writeErr file = none) :
    (saveToken env file t s).2.content file = some data := by
  rw [saveToken_open_ok env file t s hopen, encodeToFile_ok env file t _ data henc hwrite]
  simp [content_store]

theorem saveToken_quiet (env : Env) (file : GoString) (t : Token) (s : State) :
    Quiet s (saveToken env file t s).2 := by
  have h₁ : Quiet s (s.emit (.savingCredential file)) := Quiet.emit s _ rfl
  unfold saveToken
  cases env.openFileErr file with
  | some err => exact h₁
  | none =>
    refine h₁.trans ((Quiet.store _ file []).trans ?_)
    simp only [encodeToFile]
    cases env.marshal t with
    | error e => exact Quiet.refl _
    | ok data =>
      cases env.writeErr file with
      | some e => exact Quiet.refl _
      | none => exact Quiet.store _ _ _

/-- C1 (amended): with encoding/json as the codec, for every token `t` whose
access token, token type and refresh token are well-formed UTF-8 and whose
expiry (a date and a time of day, as every `time.Time` is) has a year from 0 to
9999 and a zone offset of whole minutes and less than a day, and every path `p`
that can be opened for writing and written, `saveToken(p, t)` returns a nil
error and `tokenFromFile(p)` then returns a nil error and the token `t`. -/
theorem saveToken_tokenFromFile_roundtrip (env : Env) (p : GoString) (t : Token) (s : State)
    (hmarshal : env.marshal = goJSONMarshal) (hdecode : env.decode = goJSONDecode)
    (hopen : env.openFileErr p = none) (hwrite : env.writeErr p = none) (ht : t.Encodable) :
    (saveToken env p t s).1 = none ∧
      tokenFromFile env p (saveToken env p t s).2 = .ok t := by
  obtain ⟨h₁, h₂⟩ := goJSON_roundtrip t ht
  have henc : env.marshal t = .ok (marshalText t) := by rw [hmarshal]; exact h₁
  have hdec : env.decode (marshalText t) = .ok t := by rw [hdecode]; exact h₂
  refine ⟨by simp [saveToken, hopen], ?_⟩
  simp [tokenFromFile, saveToken_content env p t s (marshalText t) hopen henc hwrite, hdec]

/-- C1, witness: the token `sampleToken` written to and read from the
credential file of the example program. -/
theorem saveToken_tokenFromFile_roundtrip_witness :
    (saveToken (sampleEnv [] sampleToken) samplePath sampleToken emptyState).1 = none ∧
      tokenFromFile (sampleEnv [] sampleToken) samplePath
        (saveToken (sampleEnv [] sampleToken) samplePath sampleToken emptyState).2
        = .ok sampleToken :=
  saveToken_tokenFromFile_roundtrip (sampleEnv [] sampleToken) samplePath sampleToken emptyState
    rfl rfl (by decide) (by decide) (by unfold Token.Encodable Time.WellFormed; decide)

/-- C1 (as stated) fails: the file at `samplePath` can be opened for writing,
`saveToken` of the token `farToken`, whose expiry the encoder rejects, returns a
nil error and leaves the file empty, and `tokenFromFile` then returns the error
`EOF` instead of the token; the same happens for `dayToken`, whose zone is a day
east of UTC; for the token `rawToken`, whose access token is not UTF-8,
`tokenFromFile` returns a token with another access token; and for `skewToken`,
whose zone is thirty seconds east of UTC, it returns a token whose expiry has
the same date and time of day in the zone UTC, thirty seconds later; and on a
full disk, where the file can be opened but not written, `saveToken` of
`sampleToken` returns a nil error and `tokenFromFile` the error `EOF`. -/
theorem saveToken_tokenFromFile_farToken :
    (sampleEnv [] sampleToken).openFileErr samplePath = none ∧
      (saveToken (sampleEnv [] sampleToken) samplePath farToken emptyState).1 = none ∧
      (saveToken (sampleEnv [] sampleToken) samplePath farToken emptyState).2.content samplePath
        = some [] ∧
      tokenFromFile (sampleEnv [] sampleToken) samplePath
        (saveToken (sampleEnv [] sampleToken) samplePath farToken emptyState).2
        = .error (goStr "EOF") ∧
      (saveToken (sampleEnv [] sampleToken) samplePath dayToken emptyState).1 = none ∧
      tokenFromFile (sampleEnv [] sampleToken) samplePath
        (saveToken (sampleEnv [] sampleToken) samplePath dayToken emptyState).2
        = .error (goStr "EOF") ∧
      (saveToken (sampleEnv [] sampleToken) samplePath rawToken emptyState).1 = none ∧
      tokenFromFile (sampleEnv [] sampleToken) samplePath
        (saveToken (sampleEnv [] sampleToken) samplePath rawToken emptyState).2
        = .ok ⟨[239, 191, 189], goStr "Bearer", [], ⟨2026, 11, 4, 18, 30, 0, 0, 0⟩⟩ ∧
      rawToken.AccessToken = [255] ∧
      (saveToken (sampleEnv [] sampleToken) samplePath skewToken emptyState).1 = none ∧
      tokenFromFile (sampleEnv [] sampleToken) samplePath
        (saveToken (sampleEnv [] sampleToken) samplePath skewToken emptyState).2
        = .ok ⟨goStr "ya29.a0AfH6SM", goStr "Bearer", [], ⟨2026, 11, 4, 18, 30, 0, 0, 0⟩⟩ ∧
      skewToken.Expiry.offset = 30 ∧
      (fullDiskEnv [] sampleToken).openFileErr samplePath = none ∧
      (saveToken (fullDiskEnv [] sampleToken) samplePath sampleToken emptyState).1 = none ∧
      tokenFromFile (fullDiskEnv [] sampleToken) samplePath
        (saveToken (fullDiskEnv [] sampleToken) samplePath sampleToken emptyState).2
        = .error (goStr "EOF") := by
  decide

/-- C7 (the code at the failing inputs): on a full disk the encoder fails to
write the token, and for `farToken` it fails to encode it, yet `saveToken`
returns a nil error both times, and `getClient` returns a client and a nil error
while the credential file stays empty. -/
theorem saveToken_drops_encode_error :
    (encodeToFile (fullDiskEnv [sampleCallback] sampleToken) samplePath sampleToken
        (emptyState.store samplePath [])).1 = some (goStr "no space left on device") ∧
      (saveToken (fullDiskEnv [sampleCallback] sampleToken) samplePath sampleToken emptyState).1
        = none ∧
      (encodeToFile (sampleEnv [sampleCallback] farToken) samplePath farToken
        (emptyState.store samplePath [])).1 ≠ none ∧
      (saveToken (sampleEnv [sampleCallback] farToken) samplePath farToken emptyState).1 = none ∧
      (getClient (fullDiskEnv [sampleCallback] sampleToken) sampleConfig
        (goStr "googlesheets-example.json") emptyState).1
        = .returned (.ok ⟨redirectedConfig, sampleToken⟩) ∧
      (getClient (fullDiskEnv [sampleCallback] sampleToken) sampleConfig
        (goStr "googlesheets-example.json") emptyState).2.2.content samplePath = some [] := by
  decide

theorem openURLWith_quiet (env : Env) (url : GoString) (bins : List GoString) (s : State) :
    Quiet s (openURLWith env url bins s) ∧ (openURLWith env url bins s).files = s.files := by
  induction bins generalizing s with
  | nil => exact ⟨Quiet.emit s .logOpenFailed rfl, rfl⟩
  | cons bin rest ih =>
    simp only [openURLWith]
    split
    · exact ⟨Quiet.emit s (.command bin url) rfl, rfl⟩
    · exact ⟨(Quiet.emit s (.command bin url) rfl).trans (ih _).1, (ih _).2⟩

theorem awaitCode_quiet (randState : GoString) (reqs : List Request) (s : State) :
    Quiet s (awaitCode randState reqs s).2 ∧ (awaitCode randState reqs s).2.files = s.files := by
  induction reqs generalizing s with
  | nil => exact ⟨Quiet.refl s, rfl⟩
  | cons req rest ih =>
    have h₁ : ∀ o : Option Event, (∀ e, o = some e → e.isAPICall = false) →
        Quiet s (match o with | some e => s.emit e | none => s) ∧
          (match o with | some e => s.emit e | none => s).files = s.files := by
      intro o ho
      cases o with
      | none => exact ⟨Quiet.refl s, rfl⟩
      | some e => exact ⟨Quiet.emit s e (ho e rfl), rfl⟩
    have h₂ : ∀ e, (handler randState req).logged = some e → e.isAPICall = false := by
      intro e he
      unfold handler at he
      split at he
      · simp at he
      · split at he
        · simp at he; subst he; rfl
        · split at he
          · simp at he
          · simp at he; subst he; rfl
    obtain ⟨q, f⟩ := h₁ _ h₂
    simp only [awaitCode]
    split
    · exact ⟨q.trans (Quiet.emit _ (.reply _ _) rfl), f⟩
    · exact ⟨q.trans ((Quiet.emit _ (.reply _ _) rfl).trans (ih _).1), (ih _).2.trans f⟩

theorem getTokenFromWeb_spec (env : Env) (config : Config) (s : State) :
    Quiet s (getTokenFromWeb env config s).2.2 ∧
      (getTokenFromWeb env config s).2.2.files = s.files ∧
      (getTokenFromWeb env config s).2.1 = config.redirected env ∧
      ∃ url, Event.logAuthorize url ∈ (getTokenFromWeb env config s).2.2.trace := by
  have ho := openURLWith_quiet env
    (env.authCodeURL (config.redirected env) (goStr "st" ++ itoa env.now))
    [goStr "xdg-open", goStr "google-chrome", goStr "open"] s
  have ha := awaitCode_quiet (goStr "st" ++ itoa env.now) env.requests
    ((openURL env (env.authCodeURL (config.redirected env) (goStr "st" ++ itoa env.now)) s).emit
      (.logAuthorize (env.authCodeURL (config.redirected env) (goStr "st" ++ itoa env.now))))
  have hmem : Event.logAuthorize (env.authCodeURL (config.redirected env)
      (goStr "st" ++ itoa env.now)) ∈
      ((openURL env (env.authCodeURL (config.redirected env) (goStr "st" ++ itoa env.now)) s).emit
      (.logAuthorize (env.authCodeURL (config.redirected env)
        (goStr "st" ++ itoa env.now)))).trace := by
    simp [trace_emit]
  have hq := (ho.1.trans (Quiet.emit _ (.logAuthorize (env.authCodeURL (config.redirected env)
      (goStr "st" ++ itoa env.now))) rfl)).trans ha.1
  have hf := ha.2.trans ((files_emit _ _).trans ho.2)
  have hm := ha.1.mem hmem
  unfold getTokenFromWeb
  simp only [Config.redirected, openURL] at *
  generalize awaitCode _ env.requests _ = r at *
  obtain ⟨c, s'⟩ := r
  cases c with
  | none => exact ⟨hq, hf, rfl, _, hm⟩
  | some code =>
    have hq' := hq.trans ((Quiet.emit s' (.logGotCode code) rfl).trans
      (Quiet.emit _ (.exchange code) rfl))
    have hm' := ((Quiet.emit s' (.logGotCode code) rfl).trans
      (Quiet.emit _ (.exchange code) rfl)).mem hm
    dsimp only
    split
    · exact ⟨hq', hf, rfl, _, hm'⟩
    · exact ⟨hq', hf, rfl, _, hm'⟩

/-- C4: when `tokenFromFile` succeeds on the cache file with the token `tok`,
`getClient` returns a nil error and the client built from `tok`, the caller's
configuration is unchanged, no file is written, and the only action of the call
is the `os.MkdirAll` of `tokenCacheFile`: neither the authorization flow nor
`saveToken` runs. -/
theorem getClient_cache_hit (env : Env) (config : Config) (name : GoString) (s : State)
    (cacheFile : GoString) (tok : Token)
    (hpath : (tokenCacheFile env name s).1 = .ok cacheFile)
    (hhit : tokenFromFile env cacheFile s = .ok tok) :
    (getClient env config name s).1 = .returned (.ok ⟨config, tok⟩) ∧
      (getClient env config name s).2.1 = config ∧
      (getClient env config name s).2.2.files = s.files ∧
      ∃ dir, (getClient env config name s).2.2.trace = s.trace ++ [.mkdirAll dir 448] := by
  obtain ⟨dir, hs⟩ := tokenCacheFile_ok_state env name s cacheFile hpath
  rcases hc : tokenCacheFile env name s with ⟨r, s1⟩
  rw [hc] at hpath hs
  simp only at hpath hs
  subst hpath hs
  simp [getClient, hc, tokenFromFile_emit, hhit, files_emit, trace_emit]

/-- C4, witness: the credential file of the example program holds `sampleToken`. -/
theorem getClient_cache_hit_witness :
    (getClient (sampleEnv [] sampleToken) sampleConfig (goStr "googlesheets-example.json")
        ⟨[(samplePath, goStr "\x7b\"access_token\":\"ya29.a0AfH6SM\",\"token_type\":\"Bearer\",\"refresh_token\":\"1//0gRefresh\",\"expiry\":\"2026-11-04T18:30:00Z\"\x7d\n")], []⟩).1
      = .returned (.ok ⟨sampleConfig, sampleToken⟩) :=
  (getClient_cache_hit (sampleEnv [] sampleToken) sampleConfig (goStr "googlesheets-example.json")
    ⟨[(samplePath, goStr "\x7b\"access_token\":\"ya29.a0AfH6SM\",\"token_type\":\"Bearer\",\"refresh_token\":\"1//0gRefresh\",\"expiry\":\"2026-11-04T18:30:00Z\"\x7d\n")], []⟩
    samplePath sampleToken (by decide) (by decide)).1

theorem getClient_miss (env : Env) (config : Config) (name : GoString) (s : State)
    (cacheFile : GoString) (err : GoError)
    (hpath : (tokenCacheFile env name s).1 = .ok cacheFile)
    (hmiss : tokenFromFile env cacheFile s = .error err) :
    getClient env config name s =
      match getTokenFromWeb env config (tokenCacheFile env name s).2 with
      | (.blocked, config, s) => (.blocked, config, s)
      | (.returned (.error err), config, s) => (.returned (.error err), config, s)
      | (.returned (.ok tok), config, s) =>
        match saveToken env cacheFile tok s with
        | (some err, s) => (.returned (.error err), config, s)
        | (none, s) => (.returned (.ok ⟨config, tok⟩), config, s) := by
  obtain ⟨dir, hs⟩ := tokenCacheFile_ok_state env name s cacheFile hpath
  rcases hc : tokenCacheFile env name s with ⟨r, s1⟩
  rw [hc] at hpath hs
  simp only at hpath hs
  subst hpath hs
  simp [getClient, hc, tokenFromFile_emit, hmiss]

theorem getClient_miss_runs_flow (env : Env) (config : Config) (name : GoString) (s : State)
    (cacheFile : GoString) (err : GoError)
    (hpath : (tokenCacheFile env name s).1 = .ok cacheFile)
    (hmiss : tokenFromFile env cacheFile s = .error err) :
    ∃ url, Event.logAuthorize url ∈ (getClient env config name s).2.2.trace := by
  rw [getClient_miss env config name s cacheFile err hpath hmiss]
  obtain ⟨_, _, _, url, hurl⟩ := getTokenFromWeb_spec env config (tokenCacheFile env name s).2
  rcases hx : getTokenFromWeb env config (tokenCacheFile env name s).2 with ⟨o, c, s2⟩
  rw [hx] at hurl
  simp only at hurl
  cases o with
  | blocked => exact ⟨url, hurl⟩
  | returned r =>
    cases r with
    | error e => exact ⟨url, hurl⟩
    | ok tok =>
      dsimp only
      have hq := (saveToken_quiet env cacheFile tok s2).mem hurl
      rcases hu : saveToken env cacheFile tok s2 with ⟨oe, s3⟩
      rw [hu] at hq
      cases oe with
      | none => exact ⟨url, hq⟩
      | some e => exact ⟨url, hq⟩

theorem saveToken_logs (env : Env) (file : GoString) (t : Token) (s : State) :
    Event.savingCredential file ∈ (saveToken env file t s).2.trace := by
  unfold saveToken encodeToFile
  cases env.openFileErr file with
  | some err => simp [trace_emit]
  | none =>
    cases env.marshal t with
    | error e => simp [trace_emit, trace_store]
    | ok data =>
      cases env.writeErr file with
      | some e => simp [trace_emit, trace_store]
      | none => simp [trace_emit, trace_store]

/-- C2: when the cache file is missing or its content cannot be decoded,
`getClient` runs the authorization flow and returns no error of the cache file:
an error of the flow is returned as it is, and when the flow yields the token
`tok` and the cache file can be opened for writing, `getClient` returns a nil
error and the client built from `tok` (and from the configuration with the
redirect address of the flow), after `saveToken` of exactly `tok` to the cache
file, which then holds the encoding of `tok` whenever the encoder produces and
writes it. -/
theorem getClient_cache_miss (env : Env) (config : Config) (name : GoString) (s : State)
    (cacheFile : GoString)
    (hpath : (tokenCacheFile env name s).1 = .ok cacheFile)
    (hmiss : s.content cacheFile = none ∨
      ∃ data err, s.content cacheFile = some data ∧ env.decode data = .error err) :
    (∃ url, Event.logAuthorize url ∈ (getClient env config name s).2.2.trace) ∧
      (∀ err, (getTokenFromWeb env config (tokenCacheFile env name s).2).1
          = .returned (.error err) →
        (getClient env config name s).1 = .returned (.error err)) ∧
      (∀ tok cfg s2, getTokenFromWeb env config (tokenCacheFile env name s).2
          = (.returned (.ok tok), cfg, s2) →
        env.openFileErr cacheFile = none →
        getClient env config name s
          = (.returned (.ok ⟨cfg, tok⟩), cfg, (saveToken env cacheFile tok s2).2) ∧
        cfg = config.redirected env ∧
        Event.savingCredential cacheFile ∈ (saveToken env cacheFile tok s2).2.trace ∧
        ∀ data, env.marshal tok = .ok data → env.writeErr cacheFile = none →
          (saveToken env cacheFile tok s2).2.content cacheFile = some data) := by
  have herr : ∃ err, tokenFromFile env cacheFile s = .error err := by
    rcases hmiss with h | ⟨data, err, h, hd⟩
    · exact ⟨goStr "open " ++ cacheFile ++ goStr ": no such file or directory",
        by simp [tokenFromFile, h]⟩
    · exact ⟨err, by simp [tokenFromFile, h, hd]⟩
  obtain ⟨err, herr⟩ := herr
  refine ⟨getClient_miss_runs_flow env config name s cacheFile err hpath herr, ?_, ?_⟩
  · intro e he
    rw [getClient_miss env config name s cacheFile err hpath herr]
    rcases hx : getTokenFromWeb env config (tokenCacheFile env name s).2 with ⟨o, c, s2⟩
    rw [hx] at he
    simp only at he
    subst he
    rfl
  · intro tok cfg s2 hflow hopen
    have hspec := getTokenFromWeb_spec env config (tokenCacheFile env name s).2
    rw [hflow] at hspec
    refine ⟨?_, hspec.2.2.1, saveToken_logs env cacheFile tok s2, ?_⟩
    · rw [getClient_miss env config name s cacheFile err hpath herr, hflow]
      simp [saveToken_open_ok env cacheFile tok s2 hopen]
    · intro data henc hwrite
      exact saveToken_content env cacheFile tok s2 data hopen henc hwrite

/-- C2, witness: no credential file exists, the redirect `sampleCallback`
arrives and the token endpoint issues `sampleToken`. -/
theorem getClient_cache_miss_witness :
    (getClient (sampleEnv [sampleCallback] sampleToken) sampleConfig
        (goStr "googlesheets-example.json") emptyState).1
      = .returned (.ok ⟨redirectedConfig, sampleToken⟩) :=
  congrArg Prod.fst ((getClient_cache_miss (sampleEnv [sampleCallback] sampleToken) sampleConfig
    (goStr "googlesheets-example.json") emptyState samplePath
    (by decide) (Or.inl (by decide))).2.2 sampleToken redirectedConfig
    (getTokenFromWeb (sampleEnv [sampleCallback] sampleToken) sampleConfig
      (tokenCacheFile (sampleEnv [sampleCallback] sampleToken)
        (goStr "googlesheets-example.json") emptyState).2).2.2
    (by decide) (by decide)).1

theorem openURLWith_sim (env : Env) (url : GoString) (bins : List GoString) (s s0 : State)
    (h : s.trace = s0.trace) :
    (openURLWith env url bins s).trace = (openURLWith env url bins s0).trace := by
  induction bins generalizing s s0 with
  | nil => simp [openURLWith, trace_emit, h]
  | cons bin rest ih =>
    simp only [openURLWith]
    split
    · simp [trace_emit, h]
    · exact ih _ _ (by simp [trace_emit, h])

theorem awaitCode_sim (randState : GoString) (reqs : List Request) (s s0 : State)
    (h : s.trace = s0.trace) :
    (awaitCode randState reqs s).1 = (awaitCode randState reqs s0).1 ∧
      (awaitCode randState reqs s).2.trace = (awaitCode randState reqs s0).2.trace := by
  induction reqs generalizing s s0 with
  | nil => exact ⟨rfl, h⟩
  | cons req rest ih =>
    have h₁ : (match (handler randState req).logged with
        | some e => s.emit e
        | none => s).trace = (match (handler randState req).logged with
        | some e => s0.emit e
        | none => s0).trace := by
      cases (handler randState req).logged with
      | none => exact h
      | some e => simp [trace_emit, h]
    simp only [awaitCode]
    split
    · exact ⟨rfl, by simp [trace_emit, h₁]⟩
    · exact ih _ _ (by simp [trace_emit, h₁])

theorem getTokenFromWeb_sim (env : Env) (config : Config) (s s0 : State)
    (h : s.trace = s0.trace) :
    (getTokenFromWeb env config s).1 = (getTokenFromWeb env config s0).1 ∧
      (getTokenFromWeb env config s).2.1 = (getTokenFromWeb env config s0).2.1 ∧
      (getTokenFromWeb env config s).2.2.trace = (getTokenFromWeb env config s0).2.2.trace := by
  have ho := openURLWith_sim env
    (env.authCodeURL (config.redirected env) (goStr "st" ++ itoa env.now))
    [goStr "xdg-open", goStr "google-chrome", goStr "open"] s s0 h
  have ha := awaitCode_sim (goStr "st" ++ itoa env.now) env.requests
    ((openURL env (env.authCodeURL (config.redirected env) (goStr "st" ++ itoa env.now)) s).emit
      (.logAuthorize (env.authCodeURL (config.redirected env) (goStr "st" ++ itoa env.now))))
    ((openURL env (env.authCodeURL (config.redirected env) (goStr "st" ++ itoa env.now)) s0).emit
      (.logAuthorize (env.authCodeURL (config.redirected env) (goStr "st" ++ itoa env.now))))
    (by simp [trace_emit, openURL, ho])
  unfold getTokenFromWeb
  simp only [Config.redirected, openURL] at *
  generalize awaitCode _ env.requests
    ((openURLWith env _ _ s).emit _) = r at *
  generalize awaitCode _ env.requests
    ((openURLWith env _ _ s0).emit _) = r0 at *
  obtain ⟨c, s'⟩ := r
  obtain ⟨c0, s0'⟩ := r0
  obtain ⟨hc, ht⟩ := ha
  simp only at hc ht
  subst hc
  cases c with
  | none => exact ⟨rfl, rfl, ht⟩
  | some code =>
    dsimp only
    split <;> simp [trace_emit, ht]

theorem saveToken_sim (env : Env) (file : GoString) (t : Token) (s s0 : State)
    (h : s.trace = s0.trace) :
    (saveToken env file t s).1 = (saveToken env file t s0).1 ∧
      (saveToken env file t s).2.trace = (saveToken env file t s0).2.trace := by
  unfold saveToken encodeToFile
  cases env.openFileErr file with
  | some err => simp [trace_emit, h]
  | none =>
    cases env.marshal t with
    | error e => simp [trace_emit, trace_store, h]
    | ok data =>
      cases env.writeErr file with
      | some e => simp [trace_emit, trace_store, h]
      | none => simp [trace_emit, trace_store, h]

theorem tokenCacheFile_sim (env : Env) (name : GoString) (s s0 : State)
    (h : s.trace = s0.trace) :
    (tokenCacheFile env name s).1 = (tokenCacheFile env name s0).1 ∧
      (tokenCacheFile env name s).2.trace = (tokenCacheFile env name s0).2.trace := by
  unfold tokenCacheFile
  cases env.currentUser with
  | error e => exact ⟨rfl, h⟩
  | ok u => simp [trace_emit, h]

theorem getClient_miss_sim (env : Env) (config : Config) (name : GoString) (s s0 : State)
    (cacheFile : GoString) (err err0 : GoError)
    (hpath : (tokenCacheFile env name s).1 = .ok cacheFile)
    (hmiss : tokenFromFile env cacheFile s = .error err)
    (hmiss0 : tokenFromFile env cacheFile s0 = .error err0)
    (h : s.trace = s0.trace) :
    (getClient env config name s).1 = (getClient env config name s0).1 ∧
      (getClient env config name s).2.1 = (getClient env config name s0).2.1 ∧
      (getClient env config name s).2.2.trace = (getClient env config name s0).2.2.trace := by
  have hc := tokenCacheFile_sim env name s s0 h
  have hpath0 : (tokenCacheFile env name s0).1 = .ok cacheFile := hc.1 ▸ hpath
  rw [getClient_miss env config name s cacheFile err hpath hmiss,
    getClient_miss env config name s0 cacheFile err0 hpath0 hmiss0]
  have hg := getTokenFromWeb_sim env config _ _ hc.2
  rcases hx : getTokenFromWeb env config (tokenCacheFile env name s).2 with ⟨o, c, s2⟩
  rcases hy : getTokenFromWeb env config (tokenCacheFile env name s0).2 with ⟨o0, c0, s20⟩
  rw [hx, hy] at hg
  obtain ⟨h1, h2, h3⟩ := hg
  simp only at h1 h2 h3
  subst h1 h2
  cases o with
  | blocked => exact ⟨rfl, rfl, h3⟩
  | returned r =>
    cases r with
    | error e => exact ⟨rfl, rfl, h3⟩
    | ok tok =>
      dsimp only
      have hs := saveToken_sim env cacheFile tok s2 s20 h3
      rcases hu : saveToken env cacheFile tok s2 with ⟨oe, s3⟩
      rcases hv : saveToken env cacheFile tok s20 with ⟨oe0, s30⟩
      rw [hu, hv] at hs
      obtain ⟨h4, h5⟩ := hs
      simp only at h4 h5
      subst h4
      cases oe with
      | none => exact ⟨rfl, rfl, h5⟩
      | some e => exact ⟨rfl, rfl, h5⟩

/-- C3 (amended): for every content `data` of an existing cache file,
`getClient` builds its client from the token the decoder returns for `data`
whenever the decoder returns no error, without any check of that token and
without running the authorization flow; when the decoder returns an error,
`getClient` runs the authorization flow and behaves as on a state without that
file: same result, same configuration, same actions. -/
theorem getClient_existing_file (env : Env) (config : Config) (name : GoString) (s : State)
    (cacheFile data : GoString)
    (hpath : (tokenCacheFile env name s).1 = .ok cacheFile)
    (hfile : s.content cacheFile = some data) :
    (∀ tok, env.decode data = .ok tok →
        (getClient env config name s).1 = .returned (.ok ⟨config, tok⟩) ∧
        ∃ dir, (getClient env config name s).2.2.trace = s.trace ++ [.mkdirAll dir 448]) ∧
      (∀ err, env.decode data = .error err →
        (∃ url, Event.logAuthorize url ∈ (getClient env config name s).2.2.trace) ∧
        ∀ s0 : State, s0.trace = s.trace → s0.content cacheFile = none →
          (getClient env config name s).1 = (getClient env config name s0).1 ∧
          (getClient env config name s).2.1 = (getClient env config name s0).2.1 ∧
          (getClient env config name s).2.2.trace = (getClient env config name s0).2.2.trace) := by
  constructor
  · intro tok hd
    have hhit : tokenFromFile env cacheFile s = .ok tok := by simp [tokenFromFile, hfile, hd]
    obtain ⟨dir, hs⟩ := tokenCacheFile_ok_state env name s cacheFile hpath
    rcases hc : tokenCacheFile env name s with ⟨r, s1⟩
    rw [hc] at hpath hs
    simp only at hpath hs
    subst hpath hs
    simp [getClient, hc, tokenFromFile_emit, hhit, trace_emit]
  · intro err hd
    have hmiss : tokenFromFile env cacheFile s = .error err := by
      simp [tokenFromFile, hfile, hd]
    constructor
    · exact getClient_miss_runs_flow env config name s cacheFile err hpath hmiss
    · intro s0 ht h0
      exact getClient_miss_sim env config name s s0 cacheFile err
        (goStr "open " ++ cacheFile ++ goStr ": no such file or directory") hpath hmiss
        (by simp [tokenFromFile, h0]) ht.symm

/-- C3, witness: the credential file of the example program holds the two bytes
of an empty JSON object. -/
theorem getClient_existing_file_witness :
    (getClient (sampleEnv [] sampleToken) sampleConfig (goStr "googlesheets-example.json")
        ⟨[(samplePath, goStr "\x7b\x7d")], []⟩).1 = .returned (.ok ⟨sampleConfig, Token.zero⟩) :=
  ((getClient_existing_file (sampleEnv [] sampleToken) sampleConfig
    (goStr "googlesheets-example.json") ⟨[(samplePath, goStr "\x7b\x7d")], []⟩ samplePath
    (goStr "\x7b\x7d") (by decide) (by decide)).1 Token.zero (by decide)).1

/-- C3 (as stated) fails: from a cache file that holds an empty JSON object, or
`null`, `getClient` builds its client from the zero token, which has an empty
access token and is not valid, and from an object followed by other bytes it
builds its client too; the authorization flow runs in none of these cases. -/
theorem getClient_builds_from_zero_token :
    (getClient (sampleEnv [] sampleToken) sampleConfig (goStr "googlesheets-example.json")
        ⟨[(samplePath, goStr "\x7b\x7d")], []⟩)
      = (.returned (.ok ⟨sampleConfig, Token.zero⟩), sampleConfig,
        ⟨[(samplePath, goStr "\x7b\x7d")],
          [.mkdirAll (goStr "/home/gopher/.google_oauth_credentials") 448]⟩) ∧
      (getClient (sampleEnv [] sampleToken) sampleConfig (goStr "googlesheets-example.json")
        ⟨[(samplePath, goStr "null")], []⟩)
      = (.returned (.ok ⟨sampleConfig, Token.zero⟩), sampleConfig,
        ⟨[(samplePath, goStr "null")],
          [.mkdirAll (goStr "/home/gopher/.google_oauth_credentials") 448]⟩) ∧
      (getClient (sampleEnv [] sampleToken) sampleConfig (goStr "googlesheets-example.json")
        ⟨[(samplePath, goStr "\x7b\"access_token\":\"x\"\x7d, not JSON")], []⟩)
      = (.returned (.ok ⟨sampleConfig, ⟨goStr "x", [], [], Time.zero⟩⟩), sampleConfig,
        ⟨[(samplePath, goStr "\x7b\"access_token\":\"x\"\x7d, not JSON")],
          [.mkdirAll (goStr "/home/gopher/.google_oauth_credentials") 448]⟩) ∧
      Token.zero.AccessToken = [] ∧
      Token.zero.Valid true = false ∧ Token.zero.Valid false = false := by
  decide

theorem awaitCode_first (randState : GoString) (reqs : List Request) (s : State) :
    (awaitCode randState reqs s).1 = (reqs.find? (accepted randState)).map (fun r => r.code) := by
  induction reqs generalizing s with
  | nil => rfl
  | cons req rest ih =>
    simp only [awaitCode, List.find?]
    by_cases h₁ : req.path = goStr "/favicon.ico"
    · simp [handler, accepted, h₁, ih]
    · by_cases h₂ : req.state = randState
      · by_cases h₃ : req.code = []
        · simp [handler, accepted, h₁, h₂, h₃, ih]
        · simp [handler, accepted, h₁, h₂, h₃]
      · simp [handler, accepted, h₁, h₂, ih]

/-- C9: the callback handler sends a code to the waiting flow exactly when the
path is not `/favicon.ico`, the state parameter equals `randState` and the code
parameter is not empty, and the code sent is the code parameter; a request for
`/favicon.ico` is answered 404 and any other request that is not let through
500, without a code being sent; the flow receives the code of the first request
that is let through. -/
theorem handler_delivers_code (randState : GoString) (req : Request) :
    (∀ code, (handler randState req).sent = some code ↔
        (req.path ≠ goStr "/favicon.ico" ∧ req.state = randState ∧ req.code ≠ [] ∧
          code = req.code)) ∧
      (req.path = goStr "/favicon.ico" →
        (handler randState req).status = 404 ∧ (handler randState req).sent = none) ∧
      (req.path ≠ goStr "/favicon.ico" → (req.state ≠ randState ∨ req.code = []) →
        (handler randState req).status = 500 ∧ (handler randState req).sent = none) ∧
      (∀ (reqs : List Request) (s : State), (awaitCode randState reqs s).1 =
        (reqs.find? (fun r => decide (r.path ≠ goStr "/favicon.ico" ∧ r.state = randState ∧
          r.code ≠ []))).map (fun r => r.code)) := by
  refine ⟨?_, ?_, ?_, ?_⟩
  · intro code
    by_cases h₁ : req.path = goStr "/favicon.ico"
    · simp [handler, h₁]
    · by_cases h₂ : req.state = randState
      · by_cases h₃ : req.code = []
        · simp [handler, h₁, h₂, h₃]
        · simp [handler, h₁, h₂, h₃, eq_comm]
      · simp [handler, h₁, h₂]
  · intro h₁
    simp [handler, h₁]
  · intro h₁ h
    rcases h with h₂ | h₃
    · simp [handler, h₁, h₂]
    · by_cases h₂ : req.state = randState
      · simp [handler, h₁, h₂, h₃]
      · simp [handler, h₁, h₂]
  · intro reqs s
    exact awaitCode_first randState reqs s

/-! ## Properties of example/main.go -/

theorem foldl_append_rows (rows acc : List (List Cell)) :
    rows.foldl (fun values r => values ++ [r]) acc = acc ++ rows := by
  induction rows generalizing acc with
  | nil => simp
  | cons r rest ih => simp [ih]

/-- C8: `exportToSpreadSheet` issues the clear call first; when the clear call
fails it returns an error and issues no update call; when the clear call
succeeds it issues exactly one update call, whose value range holds exactly the
input rows in their order; it returns nil exactly when both calls succeed. -/
theorem exportToSpreadSheet_aborts_on_first_failure (env : Env) (srv : Service)
    (id range : GoString) (rows : List (List Cell)) (s : State) :
    (∀ err, env.valuesClear srv id range = .error err →
        (Example.exportToSpreadSheet env srv id range rows s).1 ≠ none ∧
        (Example.exportToSpreadSheet env srv id range rows s).2.trace
          = s.trace ++ [.valuesClear id range]) ∧
      (∀ resp, env.valuesClear srv id range = .ok resp →
        ∃ l, (Example.exportToSpreadSheet env srv id range rows s).2.trace
          = s.trace ++ [.valuesClear id range, .logClearResponse resp,
              .valuesUpdate id range ⟨rows⟩ (goStr "RAW")] ++ l ∧
          ∀ e ∈ l, e.isAPICall = false) ∧
      ((Example.exportToSpreadSheet env srv id range rows s).1 = none ↔
        (∃ resp, env.valuesClear srv id range = .ok resp) ∧
          ∃ resp, env.valuesUpdate srv id range ⟨rows⟩ (goStr "RAW") = .ok resp) := by
  unfold Example.exportToSpreadSheet
  rw [foldl_append_rows rows []]
  simp only [List.nil_append]
  cases hc : env.valuesClear srv id range with
  | error err => simp [trace_emit]
  | ok resp =>
    cases hu : env.valuesUpdate srv id range ⟨rows⟩ (goStr "RAW") with
    | error err => simp [trace_emit]
    | ok resp' =>
      simp only [trace_emit]
      refine ⟨by simp, ?_, by simp⟩
      intro r hr
      cases hr
      exact ⟨[.logUpdateResponse resp'], by simp, by simp [Event.isAPICall]⟩

theorem tokenCacheFile_quiet (env : Env) (name : GoString) (s : State) :
    Quiet s (tokenCacheFile env name s).2 := by
  rcases tokenCacheFile_state env name s with h | ⟨dir, h⟩
  · rw [h]; exact Quiet.refl s
  · rw [h]; exact Quiet.emit s (.mkdirAll dir 448) rfl

theorem getClient_quiet (env : Env) (config : Config) (name : GoString) (s : State) :
    Quiet s (getClient env config name s).2.2 := by
  have h₁ := tokenCacheFile_quiet env name s
  unfold getClient
  generalize tokenCacheFile env name s = p at h₁ ⊢
  obtain ⟨r, s1⟩ := p
  cases r with
  | error e => exact h₁
  | ok cacheFile =>
    dsimp only
    cases tokenFromFile env cacheFile s1 with
    | ok tok => exact h₁
    | error e =>
      dsimp only
      have h₂ := (getTokenFromWeb_spec env config s1).1
      generalize getTokenFromWeb env config s1 = q at h₂ ⊢
      obtain ⟨o, c, s2⟩ := q
      cases o with
      | blocked => exact h₁.trans h₂
      | returned r =>
        cases r with
        | error e => exact h₁.trans h₂
        | ok tok =>
          dsimp only
          have h₃ := saveToken_quiet env cacheFile tok s2
          generalize saveToken env cacheFile tok s2 = u at h₃ ⊢
          obtain ⟨oe, s3⟩ := u
          cases oe with
          | none => exact h₁.trans (h₂.trans h₃)
          | some e => exact h₁.trans (h₂.trans h₃)

theorem newService_quiet (env : Env) (path name : GoString) (s : State) :
    Quiet s (Example.newService env path name s).2 := by
  unfold Example.newService
  cases s.content path with
  | none => exact Quiet.refl s
  | some b =>
    dsimp only
    cases env.configFromJSON b (goStr "https://www.googleapis.com/auth/spreadsheets") with
    | error e => exact Quiet.refl s
    | ok config =>
      dsimp only
      have h := getClient_quiet env config name s
      unfold New
      generalize getClient env config name s = p at h ⊢
      obtain ⟨o, c, s1⟩ := p
      cases o with
      | blocked => exact h
      | returned r =>
        cases r with
        | error e => exact h
        | ok client =>
          dsimp only
          cases env.sheetsNew client with
          | error e => exact h
          | ok srv => exact h

/-- C6 (amended): when the `-id` value is empty, `main` terminates fatally
before it constructs the service or does anything else; when the `-mode` value
is neither `import` nor `export`, `main` performs no spreadsheet API call and
terminates fatally unless the construction of the service waits forever for the
authorization, which is the only way for it not to terminate. -/
theorem main_rejects_bad_arguments (env : Env) (mode id : GoString) (s : State) :
    (id = [] → Example.main env mode id s
        = (.returned (.fatal (goStr "option -id: please set spread sheet id")), s)) ∧
      (mode ≠ goStr "import" → mode ≠ goStr "export" →
        Quiet s (Example.main env mode id s).2 ∧
        ((∃ msg, (Example.main env mode id s).1 = .returned (.fatal msg)) ∨
          (Example.main env mode id s).1 = .blocked) ∧
        ((Example.main env mode id s).1 = .blocked ↔
          id ≠ [] ∧ (Example.newService env (goStr "client_secret.json")
            (goStr "googlesheets-example.json") s).1 = .blocked)) := by
  constructor
  · intro h
    simp [Example.main, h]
  · intro hi he
    have hq := newService_quiet env (goStr "client_secret.json")
      (goStr "googlesheets-example.json") s
    unfold Example.main
    by_cases h : id = []
    · simp [h, Quiet.refl]
    · simp only [h, if_false, hi, he]
      generalize Example.newService env (goStr "client_secret.json")
        (goStr "googlesheets-example.json") s = p at hq ⊢
      obtain ⟨o, s1⟩ := p
      cases o with
      | blocked => exact ⟨hq, Or.inr rfl, by simp [h]⟩
      | returned r =>
        cases r with
        | error e => exact ⟨hq, Or.inl ⟨_, rfl⟩, by simp⟩
        | ok srv => exact ⟨hq, Or.inl ⟨_, rfl⟩, by simp⟩

/-- C6 (as stated) fails: with the mode `bogus`, a spreadsheet id, the client
secret `sampleSecret` in the file `client_secret.json`, from which
`google.ConfigFromJSON` reads `sampleConfig`, no credential file and no
redirect ever reaching the local server, `main` does not terminate. -/
theorem main_bad_mode_blocks :
    goStr "bogus" ≠ goStr "import" ∧ goStr "bogus" ≠ goStr "export" ∧
      (sampleEnv [] sampleToken).configFromJSON sampleSecret
        (goStr "https://www.googleapis.com/auth/spreadsheets") = .ok sampleConfig ∧
      (Example.main (sampleEnv [] sampleToken) (goStr "bogus") (goStr "1BxiMVs0XRA5nFMd")
        ⟨[(goStr "client_secret.json", sampleSecret)], []⟩).1 = .blocked := by
  set_option maxRecDepth 8000 in decide

/-! ## Properties of the path helpers -/

theorem splitSlash_ne_nil (p : GoString) : splitSlash p ≠ [] := by
  cases p with
  | nil => simp [splitSlash]
  | cons c cs =>
    unfold splitSlash
    split
    · simp
    · split <;> simp

theorem splitSlash_append_sep (a b : GoString) :
    splitSlash (a ++ sep :: b) = splitSlash a ++ splitSlash b := by
  induction a with
  | nil => simp [splitSlash]
  | cons c cs ih =>
    by_cases h : c = sep
    · simp [splitSlash, h, ih]
    · have hne := splitSlash_ne_nil cs
      cases hs : splitSlash cs with
      | nil => exact absurd hs hne
      | cons x t => simp [splitSlash, h, ih, hs]

theorem splitSlash_no_sep (c : GoString) (h : sep ∉ c) : splitSlash c = [c] := by
  induction c with
  | nil => rfl
  | cons x xs ih =>
    have hx : x ≠ sep := fun e => h (by simp [e])
    have hxs : sep ∉ xs := fun e => h (List.mem_cons_of_mem _ e)
    simp [splitSlash, hx, ih hxs]

theorem splitSlash_mem_no_sep (p : GoString) : ∀ c ∈ splitSlash p, sep ∉ c := by
  induction p with
  | nil => simp [splitSlash]
  | cons x xs ih =>
    by_cases h : x = sep
    · intro c hc
      simp only [splitSlash, h, if_true, List.mem_cons] at hc
      rcases hc with rfl | hc
      · simp
      · exact ih c hc
    · have hne := splitSlash_ne_nil xs
      cases hs : splitSlash xs with
      | nil => exact absurd hs hne
      | cons y t =>
        rw [hs] at ih
        intro c hc
        simp only [splitSlash, h, if_false, hs, List.mem_cons] at hc
        rcases hc with rfl | hc
        · intro hmem
          rcases List.mem_cons.mp hmem with e | e
          · exact h e.symm
          · exact ih y (List.mem_cons_self _ _) e
        · exact ih c (List.mem_cons_of_mem _ hc)

theorem cleanStep_reduced (r : Bool) (st : List GoString) (c : GoString)
    (hst : Reduced r st) (hc : sep ∉ c) : Reduced r (cleanStep r st c) := by
  unfold cleanStep
  split
  · exact hst
  · rename_i h₁
    split
    · rename_i h₂
      cases st with
      | nil =>
        cases r with
        | true => simp [Reduced]
        | false => simp [Reduced, dotdot, dot, sep]
      | cons top rest =>
        dsimp only
        split
        · rename_i h₃
          obtain ⟨a₁, a₂, a₃, a₄, a₅⟩ := hst
          obtain ⟨b₁, b₂⟩ := a₄ h₃
          refine ⟨by simp [dotdot], by simp [dotdot, dot], by simp [dotdot, sep], ?_,
            a₁, a₂, a₃, a₄, a₅⟩
          intro _
          refine ⟨b₁, ?_⟩
          intro d hd
          rcases List.mem_cons.mp hd with e | e
          · exact e.trans h₃
          · exact b₂ d e
        · exact hst.2.2.2.2
    · rename_i h₂
      have h₁' : c ≠ [] ∧ c ≠ dot := by
        constructor
        · exact fun e => h₁ (Or.inl e)
        · exact fun e => h₁ (Or.inr e)
      exact ⟨h₁'.1, h₁'.2, hc, fun e => absurd e h₂, hst⟩

theorem foldl_cleanStep_reduced (r : Bool) (comps : List GoString) (st : List GoString)
    (hst : Reduced r st) (hc : ∀ c ∈ comps, sep ∉ c) :
    Reduced r (comps.foldl (cleanStep r) st) := by
  induction comps generalizing st with
  | nil => exact hst
  | cons c rest ih =>
    exact ih _ (cleanStep_reduced r st c hst (hc c (List.mem_cons_self _ _)))
      (fun d hd => hc d (List.mem_cons_of_mem _ hd))

theorem cleanStep_push (r : Bool) (st : List GoString) (c : GoString)
    (h : Reduced r (c :: st)) : cleanStep r st c = c :: st := by
  obtain ⟨a₁, a₂, _, a₄, _⟩ := h
  unfold cleanStep
  rw [if_neg (by simp [a₁, a₂])]
  split
  · rename_i h₂
    obtain ⟨b₁, b₂⟩ := a₄ h₂
    cases st with
    | nil => simp [b₁, h₂]
    | cons top rest =>
      have := b₂ top (List.mem_cons_self _ _)
      simp [this, h₂]
  · rfl

theorem foldl_cleanStep_reverse (r : Bool) (st : List GoString) (h : Reduced r st) :
    st.reverse.foldl (cleanStep r) [] = st := by
  induction st with
  | nil => rfl
  | cons c rest ih =>
    rw [List.reverse_cons, List.foldl_append, ih h.2.2.2.2]
    exact cleanStep_push r rest c h

theorem joinSlash_append (l : List GoString) (b : GoString) (hl : l ≠ []) :
    joinSlash (l ++ [b]) = joinSlash l ++ sep :: b := by
  induction l with
  | nil => exact absurd rfl hl
  | cons c rest ih =>
    cases rest with
    | nil => simp [joinSlash]
    | cons d rest' =>
      have := ih (by simp)
      simp only [List.cons_append] at this ⊢
      simp [joinSlash, this]

theorem splitSlash_joinSlash (l : List GoString) (hl : l ≠ []) (h : ∀ c ∈ l, sep ∉ c) :
    splitSlash (joinSlash l) = l := by
  induction l with
  | nil => exact absurd rfl hl
  | cons c rest ih =>
    cases rest with
    | nil => simpa [joinSlash] using splitSlash_no_sep c (h c (List.mem_cons_self _ _))
    | cons d rest' =>
      have h₁ := ih (by simp) (fun x hx => h x (List.mem_cons_of_mem _ hx))
      simp only [joinSlash] at h₁ ⊢
      rw [splitSlash_append_sep, splitSlash_no_sep c (h c (List.mem_cons_self _ _))]
      simp [joinSlash, h₁]

theorem Reduced.no_sep {r : Bool} {st : List GoString} (h : Reduced r st) :
    ∀ c ∈ st, c ≠ [] ∧ sep ∉ c := by
  induction st with
  | nil => simp
  | cons c rest ih =>
    intro d hd
    rcases List.mem_cons.mp hd with e | e
    · subst e; exact ⟨h.1, h.2.2.1⟩
    · exact ih h.2.2.2.2 d e

theorem isRooted_joinSlash (l : List GoString) (hl : l ≠ [])
    (h : ∀ c ∈ l, c ≠ [] ∧ sep ∉ c) : isRooted (joinSlash l) = false := by
  cases l with
  | nil => exact absurd rfl hl
  | cons c rest =>
    obtain ⟨h₁, h₂⟩ := h c (List.mem_cons_self _ _)
    cases c with
    | nil => exact absurd rfl h₁
    | cons x xs =>
      have hx : x ≠ sep := fun e => h₂ (by simp [e])
      cases rest with
      | nil => simp [joinSlash, isRooted, hx]
      | cons d rest' => simp [joinSlash, isRooted, hx]

/-- The cleaned form of a path: whether it is rooted and the stack of its kept
components. -/
theorem Clean_eq (p : GoString) :
    Clean p = renderPath (isRooted p) ((splitSlash p).foldl (cleanStep (isRooted p)) []).reverse ∧
      Reduced (isRooted p) ((splitSlash p).foldl (cleanStep (isRooted p)) []) :=
  ⟨rfl, foldl_cleanStep_reduced _ _ _ trivial (splitSlash_mem_no_sep p)⟩

theorem isRooted_append (a b : GoString) (ha : a ≠ []) : isRooted (a ++ b) = isRooted a := by
  cases a with
  | nil => exact absurd rfl ha
  | cons x xs => rfl

/-- Cleaning a path that ends in a component `c` that is kept: the component
comes on top of the stack of the path before it. -/
theorem Clean_append_normal (a c : GoString) (ha : a ≠ []) (hc : Normal c) :
    Clean (a ++ sep :: c) = renderPath (isRooted a)
      (c :: (splitSlash a).foldl (cleanStep (isRooted a)) []).reverse := by
  obtain ⟨c₁, c₂, c₃, c₄⟩ := hc
  unfold Clean
  rw [isRooted_append a _ ha, splitSlash_append_sep, splitSlash_no_sep c c₄, List.foldl_append]
  simp [cleanStep, c₁, c₂, c₃]

theorem renderPath_push (r : Bool) (st : List GoString) (c d : GoString) :
    renderPath r (d :: c :: st).reverse = renderPath r (c :: st).reverse ++ sep :: d := by
  have hne : (c :: st).reverse ≠ [] := by simp
  have hne' : (c :: st).reverse ++ [d] ≠ [] := by simp
  rw [List.reverse_cons (a := d)]
  unfold renderPath
  rw [joinSlash_append _ d hne]
  cases r with
  | true => simp
  | false => simp [hne, hne']

/-- A cleaned path that ends in a kept component is cleaned to itself. -/
theorem renderPath_roundtrip (r : Bool) (st : List GoString) (c : GoString)
    (h : Reduced r (c :: st)) :
    isRooted (renderPath r (c :: st).reverse) = r ∧
      renderPath r (c :: st).reverse ≠ [] ∧
      (splitSlash (renderPath r (c :: st).reverse)).foldl (cleanStep r) [] = c :: st := by
  have hne : (c :: st).reverse ≠ [] := by simp
  have hmem : ∀ x ∈ (c :: st).reverse, x ≠ [] ∧ sep ∉ x := by
    intro x hx
    exact h.no_sep x (List.mem_reverse.mp hx)
  have hsplit := splitSlash_joinSlash (c :: st).reverse hne (fun x hx => (hmem x hx).2)
  have hfold := foldl_cleanStep_reverse r (c :: st) h
  unfold renderPath
  cases r with
  | true =>
    refine ⟨by simp [isRooted], by simp, ?_⟩
    simp only [if_true]
    rw [show splitSlash (sep :: joinSlash (c :: st).reverse)
      = [] :: splitSlash (joinSlash (c :: st).reverse) by simp [splitSlash], hsplit]
    simpa [cleanStep] using hfold
  | false =>
    have hj : joinSlash (c :: st).reverse ≠ [] := by
      intro e
      have := hsplit
      rw [e] at this
      have h₁ : [([] : GoString)] = (c :: st).reverse := by simpa [splitSlash] using this
      have h₂ := hmem [] (by rw [← h₁]; simp)
      exact h₂.1 rfl
    refine ⟨?_, ?_, ?_⟩
    · simpa [hne] using isRooted_joinSlash _ hne hmem
    · simpa [hne] using hj
    · simp only [hne, if_false, Bool.false_eq_true]
      rw [hsplit]
      exact hfold

theorem Normal.reduced_push {r : Bool} {st : List GoString} {c : GoString} (hc : Normal c)
    (h : Reduced r st) : Reduced r (c :: st) :=
  ⟨hc.1, hc.2.1, hc.2.2.2, fun e => absurd e hc.2.2.1, h⟩

/-- The directory `Join(a, d)` for a kept component `d`, as a cleaned path that
ends in `d`. -/
theorem Join_normal (a d : GoString) (hd : Normal d) :
    ∃ r st, Reduced r (d :: st) ∧ Join a d = renderPath r (d :: st).reverse := by
  by_cases ha : a = []
  · subst ha
    refine ⟨false, [], hd.reduced_push trivial, ?_⟩
    obtain ⟨d₁, d₂, d₃, d₄⟩ := hd
    have hr : isRooted d = false := by
      cases d with
      | nil => exact absurd rfl d₁
      | cons x xs =>
        have hx : x ≠ sep := fun e => d₄ (by simp [e])
        simp [isRooted, hx]
    simp [Join, d₁, Clean, hr, splitSlash_no_sep d d₄, cleanStep, d₂, d₃]
  · refine ⟨isRooted a, (splitSlash a).foldl (cleanStep (isRooted a)) [],
      hd.reduced_push (Clean_eq a).2, ?_⟩
    simp only [Join, ha, ne_eq, not_false_eq_true, if_true]
    exact Clean_append_normal a d ha hd

/-- Joining a kept component `c` to the directory `Join(a, d)` appends the
separator and `c` to the directory. -/
theorem Join_Join_normal (a d c : GoString) (hd : Normal d) (hc : Normal c) :
    Join (Join a d) c = Join a d ++ sep :: c := by
  obtain ⟨r, st, hred, hdir⟩ := Join_normal a d hd
  obtain ⟨h₁, h₂, h₃⟩ := renderPath_roundtrip r st d hred
  rw [hdir]
  simp only [Join, h₂, ne_eq, not_false_eq_true, if_true]
  rw [Clean_append_normal _ c h₂ hc, h₁, h₃]
  exact renderPath_push r st d c

theorem Join_clean_home (h d : GoString) (hd : Normal d) (hclean : Clean h = h)
    (hroot : h ≠ [sep]) (hdot : h ≠ dot) : Join h d = h ++ sep :: d := by
  have hne : h ≠ [] := by
    intro e
    rw [e] at hclean
    exact absurd hclean (by decide)
  simp only [Join, hne, ne_eq, not_false_eq_true, if_true]
  rw [Clean_append_normal h d hne hd]
  have hc := (Clean_eq h).1
  rw [hclean] at hc
  cases hst : (splitSlash h).foldl (cleanStep (isRooted h)) [] with
  | nil =>
    rw [hst] at hc
    cases hr : isRooted h with
    | true => rw [hr] at hc; exact absurd hc (by simpa [renderPath, joinSlash] using hroot)
    | false => rw [hr] at hc; exact absurd hc (by simpa [renderPath] using hdot)
  | cons c st =>
    rw [hst] at hc
    rw [renderPath_push, ← hc]

theorem shouldEscape_false (c : Nat) (h : shouldEscape c = false) :
    c ≠ 32 ∧ c ≠ sep ∧ c ≠ 92 := by
  unfold shouldEscape at h
  refine ⟨?_, ?_, ?_⟩ <;> intro e <;> subst e <;> simp [sep] at h

theorem upperhex_kept (n : Nat) : shouldEscape (upperhex n) = false := by
  have h : n % 16 < 16 := Nat.mod_lt _ (by decide)
  unfold upperhex shouldEscape
  split
  · rw [if_pos (Or.inr (Or.inr ⟨by omega, by omega⟩))]
  · rw [if_pos (Or.inr (Or.inl ⟨by omega, by omega⟩))]

theorem QueryEscape_append (a b : GoString) :
    QueryEscape (a ++ b) = QueryEscape a ++ QueryEscape b := by
  induction a with
  | nil => rfl
  | cons c cs ih =>
    rw [List.cons_append]
    by_cases h₁ : c = 32
    · simp [QueryEscape, h₁, ih]
    · by_cases h₂ : shouldEscape c = true
      · simp [QueryEscape, h₁, h₂, ih]
      · simp [QueryEscape, h₁, h₂, ih]

theorem QueryEscape_mem (s : GoString) :
    ∀ c ∈ QueryEscape s, c = 43 ∨ c = 37 ∨ shouldEscape c = false := by
  induction s with
  | nil => simp [QueryEscape]
  | cons x xs ih =>
    intro c hc
    unfold QueryEscape at hc
    split at hc
    · rcases List.mem_cons.mp hc with e | e
      · exact Or.inl e
      · exact ih c e
    · split at hc
      · simp only [List.mem_cons] at hc
        rcases hc with e | e | e | e
        · exact Or.inr (Or.inl e)
        · exact Or.inr (Or.inr (e ▸ upperhex_kept _))
        · exact Or.inr (Or.inr (e ▸ upperhex_kept _))
        · exact ih c e
      · rename_i h
        rcases List.mem_cons.mp hc with e | e
        · exact Or.inr (Or.inr (by simpa [e] using h))
        · exact ih c e

theorem QueryEscape_no_separator (s : GoString) : sep ∉ QueryEscape s ∧ 92 ∉ QueryEscape s := by
  constructor
  · intro h
    rcases QueryEscape_mem s sep h with e | e | e
    · exact absurd e (by decide)
    · exact absurd e (by decide)
    · exact (shouldEscape_false sep e).2.1 rfl
  · intro h
    rcases QueryEscape_mem s 92 h with e | e | e
    · exact absurd e (by decide)
    · exact absurd e (by decide)
    · exact (shouldEscape_false 92 e).2.2 rfl

theorem QueryEscape_kept (s : GoString) (h : ∀ c ∈ s, shouldEscape c = false) :
    QueryEscape s = s := by
  induction s with
  | nil => rfl
  | cons x xs ih =>
    have hx := h x (List.mem_cons_self _ _)
    have h32 := (shouldEscape_false x hx).1
    simp [QueryEscape, h32, hx, ih (fun c hc => h c (List.mem_cons_of_mem _ hc))]

theorem HasSuffix_append (a suffix : GoString) : HasSuffix (a ++ suffix) suffix = true := by
  simp [HasSuffix]

theorem HasSuffix_split (s suffix : GoString) (h : HasSuffix s suffix = true) :
    ∃ a, s = a ++ suffix := by
  simp only [HasSuffix, Bool.and_eq_true, decide_eq_true_eq, beq_iff_eq] at h
  exact ⟨s.take (s.length - suffix.length), by
    conv_lhs => rw [← List.take_append_drop (s.length - suffix.length) s]
    rw [h.2]⟩

/-- The name of the credential file: the escaped text of some name followed by
`.json`. -/
theorem cacheComponent_eq (name : GoString) :
    ∃ a, cacheComponent name = QueryEscape a ++ goStr ".json" := by
  have hj : QueryEscape (goStr ".json") = goStr ".json" := by decide
  unfold cacheComponent
  split
  · rename_i h
    obtain ⟨a, ha⟩ := HasSuffix_split name _ h
    exact ⟨a, by rw [ha, QueryEscape_append, hj]⟩
  · exact ⟨name, by rw [QueryEscape_append, hj]⟩

theorem cacheComponent_normal (name : GoString) : Normal (cacheComponent name) := by
  obtain ⟨a, ha⟩ := cacheComponent_eq name
  have hlen : 5 ≤ (cacheComponent name).length := by
    rw [ha, List.length_append]
    have : (goStr ".json").length = 5 := by decide
    omega
  refine ⟨?_, ?_, ?_, (QueryEscape_no_separator _).1⟩
  · intro e; rw [e] at hlen; simp at hlen
  · intro e; rw [e] at hlen; simp [dot] at hlen
  · intro e; rw [e] at hlen; simp [dotdot] at hlen

theorem credentials_normal : Normal (goStr ".google_oauth_credentials") := by
  refine ⟨by decide, by decide, by decide, by decide⟩

/-- The result of `tokenCacheFile` when the current user is known. -/
theorem tokenCacheFile_eq (env : Env) (name : GoString) (s : State) (u : User)
    (hu : env.currentUser = .ok u) :
    tokenCacheFile env name s =
      (.ok (cacheDir u ++ sep :: cacheComponent name), s.emit (.mkdirAll (cacheDir u) 448)) := by
  have h := Join_Join_normal u.HomeDir (goStr ".google_oauth_credentials") (cacheComponent name)
    credentials_normal (cacheComponent_normal name)
  unfold cacheComponent at h
  unfold tokenCacheFile cacheDir cacheComponent
  rw [hu]
  by_cases hs : HasSuffix name (goStr ".json") = true
  · simp only [hs, if_true] at h
    simp [hs, h]
  · simp only [Bool.not_eq_true] at hs
    simp only [hs, Bool.false_eq_true, if_false] at h
    simp [hs, h]

/-- C5 (amended): for every cacheFileName and every current user with home
directory `H`, `tokenCacheFile` returns a nil error and the path `D/e`, where `D`
is `filepath.Join(H, ".google_oauth_credentials")`, which is
`H/.google_oauth_credentials` when `H` is a cleaned path other than `/` and `.`,
and `e` is `url.QueryEscape` of the cacheFileName, with `.json` appended
unless the cacheFileName ends in `.json` already; when the cacheFileName holds
letters, digits, `-`, `_`, `.` and `~` only and does not end in `.json`, the
path is `D/<cacheFileName>.json`. -/
theorem tokenCacheFile_path (env : Env) (name : GoString) (s : State) (u : User)
    (hu : env.currentUser = .ok u) :
    (tokenCacheFile env name s).1 = .ok (cacheDir u ++ sep ::
        QueryEscape (if HasSuffix name (goStr ".json") then name else name ++ goStr ".json")) ∧
      (HasSuffix name (goStr ".json") = false → (∀ c ∈ name, shouldEscape c = false) →
        (tokenCacheFile env name s).1 = .ok (cacheDir u ++ sep :: (name ++ goStr ".json"))) ∧
      (Clean u.HomeDir = u.HomeDir → u.HomeDir ≠ [sep] → u.HomeDir ≠ dot →
        cacheDir u = u.HomeDir ++ sep :: goStr ".google_oauth_credentials") := by
  refine ⟨?_, ?_, ?_⟩
  · rw [tokenCacheFile_eq env name s u hu]
    rfl
  · intro hs hk
    rw [tokenCacheFile_eq env name s u hu]
    have hj : ∀ c ∈ goStr ".json", shouldEscape c = false := by decide
    simp only [cacheComponent, hs, Bool.false_eq_true, if_false]
    rw [QueryEscape_kept]
    intro c hc
    rcases List.mem_append.mp hc with h | h
    · exact hk c h
    · exact hj c h
  · intro h₁ h₂ h₃
    exact Join_clean_home _ _ credentials_normal h₁ h₂ h₃

/-- C5, witness: the user `gopher` and the cache file name `sheets`. -/
theorem tokenCacheFile_path_witness :
    (tokenCacheFile (sampleEnv [] sampleToken) (goStr "sheets") emptyState).1
      = .ok (goStr "/home/gopher/.google_oauth_credentials/sheets.json") :=
  ((tokenCacheFile_path (sampleEnv [] sampleToken) (goStr "sheets") emptyState
    ⟨goStr "/home/gopher"⟩ rfl).2.1 (by decide) (by decide)).trans (by decide)

/-- C5 (as stated) fails: for the user `gopher`, the name
`googlesheets-example.json` that `main` passes gives a path without a second
`.json`, and the name `my sheet` gives `my+sheet.json`: neither path is the
cache directory joined with the given name followed by `.json`. -/
theorem tokenCacheFile_not_name_json :
    (tokenCacheFile (sampleEnv [] sampleToken) (goStr "googlesheets-example.json") emptyState).1
        = .ok (goStr "/home/gopher/.google_oauth_credentials/googlesheets-example.json") ∧
      goStr "/home/gopher/.google_oauth_credentials/googlesheets-example.json"
        ≠ goStr "/home/gopher/.google_oauth_credentials/googlesheets-example.json.json" ∧
      (tokenCacheFile (sampleEnv [] sampleToken) (goStr "my sheet") emptyState).1
        = .ok (goStr "/home/gopher/.google_oauth_credentials/my+sheet.json") ∧
      goStr "/home/gopher/.google_oauth_credentials/my+sheet.json"
        ≠ goStr "/home/gopher/.google_oauth_credentials/my sheet.json" := by
  decide

/-- C10: when the current user is known, the path that `tokenCacheFile` returns
is the cache directory, a separator, and one more component: `url.QueryEscape`
of the name, with `.json` appended unless the name ends in `.json` already; that
component ends in `.json`, holds no `/` and no `\`, and is neither `.` nor `..`;
and a name that does not end in `.json` gives the same result as that name
followed by `.json`. -/
theorem tokenCacheFile_confined (env : Env) (name : GoString) (s : State) (u : User)
    (hu : env.currentUser = .ok u) :
    (tokenCacheFile env name s).1 = .ok (cacheDir u ++ sep :: cacheComponent name) ∧
      HasSuffix (cacheComponent name) (goStr ".json") = true ∧
      sep ∉ cacheComponent name ∧ 92 ∉ cacheComponent name ∧
      cacheComponent name ≠ dot ∧ cacheComponent name ≠ dotdot ∧ cacheComponent name ≠ [] ∧
      (HasSuffix name (goStr ".json") = false →
        tokenCacheFile env name s = tokenCacheFile env (name ++ goStr ".json") s) := by
  have hn := cacheComponent_normal name
  obtain ⟨a, ha⟩ := cacheComponent_eq name
  refine ⟨by rw [tokenCacheFile_eq env name s u hu], ?_, hn.2.2.2,
    (QueryEscape_no_separator _).2, hn.2.1, hn.2.2.1, hn.1, ?_⟩
  · rw [ha]
    exact HasSuffix_append _ _
  · intro hs
    rw [tokenCacheFile_eq env name s u hu, tokenCacheFile_eq env _ s u hu]
    simp [cacheComponent, hs, HasSuffix_append]

/-- C10, witness: the user `gopher` and the name `../../etc/passwd`. -/
theorem tokenCacheFile_confined_witness :
    (tokenCacheFile (sampleEnv [] sampleToken) (goStr "../../etc/passwd") emptyState).1
      = .ok (goStr "/home/gopher/.google_oauth_credentials/..%2F..%2Fetc%2Fpasswd.json") :=
  (tokenCacheFile_confined (sampleEnv [] sampleToken) (goStr "../../etc/passwd") emptyState
    ⟨goStr "/home/gopher"⟩ rfl).1.trans (by decide)

end GoogleSheets
